import Mathlib

/-!
Verification of the graph consolidation core of the repository
(`backend/app/tools/checker.py`, `backend/app/tools/merge.py`,
`backend/app/tools/schema_validate.py`, `backend/app/models.py`).

Python floats are modelled as exact rationals (`ℚ`); all constants that
appear in the claims are decadic, and every comparison in the claims has
slack far larger than double-precision rounding, so this is faithful for
the properties at stake.  Python strings are modelled as Lean `String`
(sequences of unicode scalar values, matching Python's code-point view);
`str.lower` is modelled via `Char.toLower` (ASCII-faithful) and
`str.strip()` via an explicit whitespace-trimming function.
-/

namespace CloudGraph

/-! ## Generic association-list dictionaries

Python `dict` preserves insertion order; assignment to an existing key
updates the entry in place, a new key is appended at the end.  We model
dictionaries as ordered association lists with exactly those semantics. -/

/-- First-match lookup, i.e. Python `d.get(k)` / `k in d`. -/
def aget {κ α : Type} [DecidableEq κ] : List (κ × α) → κ → Option α
  | [], _ => Option.none
  | (k', v) :: t, k => if k' = k then some v else aget t k

/-- Python `d[k] = v`: update the existing entry in place, else append. -/
def aset {κ α : Type} [DecidableEq κ] : List (κ × α) → κ → α → List (κ × α)
  | [], k, v => [(k, v)]
  | (k', w) :: t, k, v => if k' = k then (k, v) :: t else (k', w) :: aset t k v

/-- Python `d.setdefault(k, v)`: insert at the end only when absent. -/
def asetdefault {κ α : Type} [DecidableEq κ] (d : List (κ × α)) (k : κ) (v : α) :
    List (κ × α) :=
  match aget d k with
  | some _ => d
  | Option.none => d ++ [(k, v)]

/-- Python `k in d`. -/
def hasKey {κ α : Type} [DecidableEq κ] (d : List (κ × α)) (k : κ) : Bool :=
  (aget d k).isSome

/-! ## String helpers shared by checker.py and merge.py -/

/-- Python substring test `needle in hay` on character lists. -/
def subChars : List Char → List Char → Bool
  | n, [] => n.isEmpty
  | n, c :: t => n.isPrefixOf (c :: t) || subChars n t

/-- Python substring test `needle in hay`. -/
def subStrS (needle hay : String) : Bool :=
  subChars needle.data hay.data

/-- Python's default `str.strip()` whitespace set. -/
def isSpaceChar (c : Char) : Bool :=
  c = ' ' || c = '\t' || c = '\n' || c = '\x0d' || c = '\x0b' || c = '\x0c'

/-- Python `s.strip()`. -/
def pyStrip (s : String) : String :=
  String.mk (((s.data.dropWhile isSpaceChar).reverse.dropWhile isSpaceChar).reverse)

/-- Python `s.split(sep)` with a one-character separator: splits at every
occurrence, keeping empty pieces (`"".split(" ") == [""]`). -/
def splitChar (sep : Char) : List Char → List (List Char)
  | [] => [[]]
  | c :: t =>
    if c = sep then [] :: splitChar sep t
    else
      match splitChar sep t with
      | [] => [[c]]
      | w :: ws => (c :: w) :: ws

/-- Python `s.split(" ")`. -/
def splitSpace (s : String) : List String :=
  (splitChar ' ' s.data).map String.mk

/-- `" ".join(words)`. -/
def joinWords : List String → String
  | [] => ""
  | [w] => w
  | w :: x :: ws => w ++ " " ++ joinWords (x :: ws)

/-- Python `max(a, b)` (kernel-computable on ℚ). -/
def qmax (a b : ℚ) : ℚ := if a ≤ b then b else a

/-- Python `min(a, b)` (kernel-computable on ℚ). -/
def qmin (a b : ℚ) : ℚ := if a ≤ b then a else b

/-- `max(0.0, min(1.0, x))` — `_clamp01` in checker.py (and inlined in
merge.py line 100). -/
def clamp01 (x : ℚ) : ℚ := qmax 0 (qmin 1 x)

/-- The non-greedy regex `re.sub(r"\(.*?\)", "", s)` as a single pass:
a match always runs from a `(` that has a later `)` through the first
such `)`; the flag records "inside a match, dropping up to the next
`)`". -/
def removeParensAux : Bool → List Char → List Char
  | _, [] => []
  | true, c :: t => if c = ')' then removeParensAux false t else removeParensAux true t
  | false, c :: t =>
    if c = '(' then
      if t.contains ')' then removeParensAux true t
      else c :: removeParensAux false t
    else c :: removeParensAux false t

def removeParens (l : List Char) : List Char :=
  removeParensAux false l

/-- Characters kept by the class `[a-z0-9一-鿿]` (checker.py line
14, merge.py line 29), applied after lowercasing. -/
def isKeepChar (c : Char) : Bool :=
  (decide ('a' ≤ c) && decide (c ≤ 'z')) ||
  (decide ('0' ≤ c) && decide (c ≤ '9')) ||
  (decide (0x4e00 ≤ c.toNat) && decide (c.toNat ≤ 0x9fff))

/-- `_norm` in checker.py (lines 11–16): lowercase, strip parenthetical
asides, collapse runs of non-kept characters to single spaces, trim.
Replacing each non-kept character by a space and then splitting on spaces,
dropping empty pieces and re-joining with single spaces is exactly the
composition of the two `re.sub` calls followed by `strip()`. -/
def norm (s : String) : String :=
  let cleaned := String.mk
    ((removeParens (s.data.map Char.toLower)).map
      (fun c => if isKeepChar c then c else ' '))
  joinWords ((splitSpace cleaned).filter (fun w => ¬ w = ""))

/-! ## SHA-1 (model of Python's `hashlib.sha1(...).hexdigest()`)

`models.py` and `schema_validate.py` derive deterministic edge ids from
`sha1(f"{source}|{relation}|{target}".encode("utf-8")).hexdigest()[:12]`.
We implement SHA-1 over byte lists with `Nat` arithmetic mod 2^32. -/

/-- UTF-8 encoding of one unicode scalar value. -/
def charUtf8 (c : Char) : List Nat :=
  let n := c.toNat
  if n < 128 then [n]
  else if n < 2048 then [192 + n / 64, 128 + n % 64]
  else if n < 65536 then [224 + n / 4096, 128 + (n / 64) % 64, 128 + n % 64]
  else [240 + n / 262144, 128 + (n / 4096) % 64, 128 + (n / 64) % 64, 128 + n % 64]

/-- Python `s.encode("utf-8", "ignore")`; Lean `Char`s are always valid
scalar values, so the `ignore` handler never fires. -/
def utf8Bytes (s : String) : List Nat :=
  (s.data.map charUtf8).flatten

def u32 (n : Nat) : Nat := n % 4294967296

def rotl (k x : Nat) : Nat := u32 ((x <<< k) ||| (x >>> (32 - k)))

/-- Big-endian 32-bit word from four bytes. -/
def word4 (l : List Nat) : Nat :=
  (l.getD 0 0) * 16777216 + (l.getD 1 0) * 65536 + (l.getD 2 0) * 256 + l.getD 3 0

/-- SHA-1 message padding: `0x80`, zeros to 56 mod 64, 8-byte big-endian
bit length. -/
def sha1Pad (msg : List Nat) : List Nat :=
  let ml := msg.length * 8
  let r := msg.length % 64
  let k := if r ≤ 55 then 55 - r else 119 - r
  msg ++ [128] ++ List.replicate k 0 ++
    (List.range 8).map (fun i => (ml >>> (8 * (7 - i))) % 256)

def chunksOf64 : List Nat → List (List Nat)
  | [] => []
  | a :: t => ((a :: t).take 64) :: chunksOf64 ((a :: t).drop 64)
termination_by l => l.length
decreasing_by
  simp only [List.length_drop, List.length_cons]
  omega

/-- The 80-entry message schedule. -/
def sha1Schedule (chunk : List Nat) : List Nat :=
  let w16 := (List.range 16).map (fun i => word4 ((chunk.drop (4 * i)).take 4))
  (List.range 64).foldl
    (fun w _ =>
      w ++ [rotl 1 ((w.getD (w.length - 3) 0) ^^^ (w.getD (w.length - 8) 0) ^^^
                    (w.getD (w.length - 14) 0) ^^^ (w.getD (w.length - 16) 0))])
    w16

def sha1Round (st : Nat × Nat × Nat × Nat × Nat) (iw : Nat × Nat) :
    Nat × Nat × Nat × Nat × Nat :=
  let (a, b, c, d, e) := st
  let (i, w) := iw
  let f :=
    if i < 20 then (b &&& c) ||| ((4294967295 ^^^ b) &&& d)
    else if i < 40 then b ^^^ c ^^^ d
    else if i < 60 then (b &&& c) ||| (b &&& d) ||| (c &&& d)
    else b ^^^ c ^^^ d
  let k :=
    if i < 20 then 1518500249
    else if i < 40 then 1859775393
    else if i < 60 then 2400959708
    else 3395469782
  let temp := u32 (rotl 5 a + f + e + k + w)
  (temp, a, rotl 30 b, c, d)

def sha1Chunk (h : Nat × Nat × Nat × Nat × Nat) (chunk : List Nat) :
    Nat × Nat × Nat × Nat × Nat :=
  let (h0, h1, h2, h3, h4) := h
  let ws := sha1Schedule chunk
  let (a, b, c, d, e) :=
    (((List.range 80).zip ws).foldl sha1Round (h0, h1, h2, h3, h4))
  (u32 (h0 + a), u32 (h1 + b), u32 (h2 + c), u32 (h3 + d), u32 (h4 + e))

def hexDigit (n : Nat) : Char := "0123456789abcdef".data.getD n '0'

/-- Exactly eight hex characters of a 32-bit word, most significant first. -/
def wordHex (w : Nat) : List Char :=
  (List.range 8).map (fun i => hexDigit ((w >>> (4 * (7 - i))) % 16))

/-- `hashlib.sha1(bytes).hexdigest()` as a 40-character list. -/
def sha1HexChars (msg : List Nat) : List Char :=
  let (h0, h1, h2, h3, h4) :=
    (chunksOf64 (sha1Pad msg)).foldl sha1Chunk
      (1732584193, 4023233417, 2562383102, 271733878, 3285377520)
  wordHex h0 ++ wordHex h1 ++ wordHex h2 ++ wordHex h3 ++ wordHex h4

/-- `hashlib.sha1(s.encode("utf-8", "ignore")).hexdigest()[:12]` — the
deterministic edge-id hash of models.py lines 42–44 and
schema_validate.py lines 57–61. -/
def sha12 (s : String) : String :=
  String.mk ((sha1HexChars (utf8Bytes s)).take 12)

/-! ## Data model (models.py) -/

/-- `Evidence` (models.py lines 13–17). -/
structure Evidence where
  title : String
  snippet : String
  url : Option String := Option.none
  domain : Option String := Option.none
deriving DecidableEq, Repr

/-- `Node` (models.py lines 20–25). -/
structure Node where
  id : String
  name : String
  domain : String
  definition : Option String := Option.none
  confidence : ℚ := 3 / 4
deriving DecidableEq, Repr

/-- `Edge` (models.py lines 28–44).  `relation` is a free string in the
embedding; the `RelationType` literal is enforced by the whitelist check in
`run_check` exactly as in the source. -/
structure Edge where
  id : Option String := Option.none
  source : String
  target : String
  relation : String
  explanation : String
  evidence : Evidence
  confidence : ℚ := 7 / 10
  checked : Bool := true
  check_reason : Option String := Option.none
  flags : List String := []
deriving DecidableEq, Repr

/-- `Edge.ensure_id` (models.py lines 40–44): `if self.id: return`, so an
absent or empty id is replaced by the truncated SHA-1 of
`source|relation|target`. -/
def ensureId (e : Edge) : Edge :=
  match e.id with
  | some s =>
    if s = "" then
      { e with id := some (sha12 (e.source ++ "|" ++ e.relation ++ "|" ++ e.target)) }
    else e
  | Option.none =>
    { e with id := some (sha12 (e.source ++ "|" ++ e.relation ++ "|" ++ e.target)) }

/-- `CheckerSummary` (models.py lines 47–60). -/
structure CheckerSummary where
  schema_fixed : Nat := 0
  edges_checked : Nat := 0
  edges_failed : Nat := 0
  edges_downgraded : Nat := 0
  dedup_nodes_merged : Nat := 0
  dedup_edges_removed : Nat := 0
  conflicts_flagged : Nat := 0
  passed : Nat := 0
  failed : Nat := 0
deriving DecidableEq, Repr

/-- `Meta` (models.py lines 63–67); `agent_trace : dict | None` is modelled
opaquely as an optional string, it is never read or written by the core. -/
structure Meta where
  generated_at : String
  version : String
  checker_summary : CheckerSummary
  agent_trace : Option String := Option.none
deriving DecidableEq, Repr

/-- `GraphResult` (models.py lines 70–74). -/
structure GraphResult where
  concept : String
  nodes : List Node
  edges : List Edge
  meta : Meta
deriving DecidableEq, Repr

/-! ## EvidenceChecker (checker.py) -/

/-- The `_mentions` closure of `evidence_check` (checker.py lines 38–44):
an empty name mentions nothing; a name with no token of length ≥ 4 must
occur whole as a substring; otherwise any of its first four such tokens
must occur as a substring. -/
def mentions (name sn : String) : Bool :=
  if name = "" then false
  else
    let parts := (splitSpace name).filter (fun p => 4 ≤ p.length)
    if parts.isEmpty then subStrS name sn
    else (parts.take 4).any (fun p => subStrS p sn)

/-- First-occurrence deduplication; models the `set` comprehension
`{t for t in sn.split(" ") if len(t) >= 6}` (checker.py line 51) as a
duplicate-free list.  Python's set iteration order is unspecified; we fix
first-occurrence order, which is immaterial whenever the snippet has at
most 12 distinct long tokens (every concrete instance in this file does). -/
def dedupFirstAux (seen : List String) : List String → List String
  | [] => []
  | a :: t =>
    if a ∈ seen then dedupFirstAux seen t
    else a :: dedupFirstAux (a :: seen) t

def dedupFirst (l : List String) : List String :=
  dedupFirstAux [] l

/-- `overlap` of checker.py line 52: how many of the first twelve distinct
long (≥ 6 chars) snippet tokens occur as substrings of the normalized
explanation. -/
def overlapCount (sn exp : String) : Nat :=
  let tokens := dedupFirst ((splitSpace sn).filter (fun t => 6 ≤ t.length))
  (tokens.take 12).countP (fun t => subStrS t exp)

/-- `evidence_check` (checker.py lines 19–54).  Returns
`(ok, score, reason)`.  `edge.evidence` is always truthy (typed model), and
`edge.evidence.title`/`snippet` are truthy iff non-empty. -/
def evidence_check (edge : Edge) (source_name target_name : String) :
    Bool × ℚ × String :=
  if edge.evidence.title = "" ∨ edge.evidence.snippet = "" then
    (false, 0, "Missing evidence.title or evidence.snippet.")
  else if pyStrip edge.explanation = "" then
    (false, 0, "Missing explanation.")
  else
    let sn := norm edge.evidence.snippet
    let sname := norm source_name
    let tname := norm target_name
    if sn = "" then (false, 0, "Empty evidence snippet.")
    else if ¬ (mentions sname sn ∨ mentions tname sn) then
      (false, 3 / 20, "Evidence snippet does not mention source/target concept.")
    else
      let exp := norm edge.explanation
      let overlap := overlapCount sn exp
      (true, clamp01 (11 / 20 + 7 / 100 * overlap), "Evidence supports the relation.")

/-- The dict comprehension `{n.id: n.name for n in graph.nodes}`
(checker.py line 62): later duplicates overwrite earlier entries. -/
def nodeNameMap (ns : List Node) : List (String × String) :=
  ns.foldl (fun m n => aset m n.id n.name) []

def relWhitelist : List String :=
  ["related_to", "used_in", "is_a", "explains", "bridges"]

/-- The relation whitelist + downgrade step (checker.py lines 72–75). -/
def downgradeEdge (e : Edge) : Edge :=
  if relWhitelist.contains e.relation then e
  else { e with relation := "related_to", flags := e.flags ++ ["downgraded"] }

/-- The per-edge body of the `run_check` loop (checker.py lines 65–90):
`ensure_id`, relation whitelist with downgrade, `evidence_check`, then the
pass/fail update.  Returns the rewritten edge together with the `ok` and
`downgraded` booleans feeding the counters. -/
def checkEdge (nm : List (String × String)) (strict : Bool) (e0 : Edge) :
    Edge × Bool × Bool :=
  let e1 := ensureId e0
  let sname := (aget nm e1.source).getD e1.source
  let tname := (aget nm e1.target).getD e1.target
  let down : Bool := ! relWhitelist.contains e1.relation
  let e2 := downgradeEdge e1
  let r := evidence_check e2 sname tname
  if r.1 then
    ({ e2 with checked := true,
               confidence := clamp01 ((e2.confidence + r.2.1) / 2),
               check_reason := some r.2.2 }, true, down)
  else
    ({ e2 with checked := false,
               confidence := clamp01 (e2.confidence * (45 / 100)),
               check_reason := some r.2.2,
               explanation :=
                 if strict = true ∧ e2.explanation = "" then
                   "No supported evidence found; marked as unchecked."
                 else e2.explanation }, false, down)

/-- `run_check` (checker.py lines 57–98): rewrite every edge in order and
store the pass/fail/downgrade counters into `meta.checker_summary`. -/
def run_check (graph : GraphResult) (strict : Bool := true) : GraphResult :=
  let nm := nodeNameMap graph.nodes
  let st := graph.edges.foldl
    (fun (acc : List Edge × Nat × Nat × Nat × Nat) e =>
      let r := checkEdge nm strict e
      (acc.1 ++ [r.1],
       acc.2.1 + (if r.2.1 then 1 else 0),
       acc.2.2.1 + (if r.2.1 then 0 else 1),
       acc.2.2.2.1 + (if r.2.2 then 1 else 0),
       acc.2.2.2.2 + 1))
    ([], 0, 0, 0, 0)
  { graph with
    edges := st.1,
    meta := { graph.meta with
      checker_summary := { graph.meta.checker_summary with
        passed := st.2.1,
        failed := st.2.2.1,
        edges_checked := st.2.2.2.2,
        edges_failed := st.2.2.1,
        edges_downgraded := st.2.2.2.1 } } }

/-! ## GraphNormalizer (merge.py) -/

/-- `MergeStats` (merge.py lines 11–15). -/
structure MergeStats where
  nodes_merged : Nat := 0
  edges_removed : Nat := 0
  conflicts_flagged : Nat := 0
deriving DecidableEq, Repr

/-- `_ABBREV` (merge.py lines 18–23). -/
def ABBREV : List (String × String) :=
  [("nn", "neural network"), ("ml", "machine learning"),
   ("dl", "deep learning"), ("kl divergence", "kullback leibler divergence")]

/-- `_normalize_name` (merge.py lines 26–31): the same
lowercase/deparenthesize/collapse/trim pipeline as checker's `_norm`
(the leading `strip()` is absorbed by the final trim), followed by the
abbreviation table. -/
def normalize_name (name : String) : String :=
  let s := norm name
  (aget ABBREV s).getD s

/-- `_k` (merge.py lines 34–36): `f"{domain.lower()}::{s}"`. -/
def mergeKey (name domain : String) : String :=
  String.mk (domain.data.map Char.toLower) ++ "::" ++ normalize_name name

/-- The node loop of `merge_synonyms` (merge.py lines 45–55), processing
nodes in input order.  State: `(id_map, kept, nodes_merged)`.  The first
node for a key survives; every node's id is remapped to the survivor's. -/
def nodeStep (st : List (String × String) × List (String × Node) × Nat)
    (n : Node) : List (String × String) × List (String × Node) × Nat :=
  let key := mergeKey n.name n.domain
  match aget st.2.1 key with
  | Option.none => (aset st.1 n.id n.id, st.2.1 ++ [(key, n)], st.2.2)
  | some m => (aset st.1 n.id m.id, st.2.1, st.2.2 + 1)

def nodePhase (nodes : List Node) :
    List (String × String) × List (String × Node) × Nat :=
  nodes.foldl nodeStep ([], [], 0)

/-- Edge keys `(source, target, relation)` grouped as `((s, t), rel)`. -/
abbrev EKey := (String × String) × String

/-- Endpoint remapping of one edge (merge.py lines 60–65): apply the
id-remap to `source`/`target`, then `ensure_id`. -/
def remapEdge (idMap : List (String × String)) (e : Edge) : Edge :=
  ensureId { e with
    source := (aget idMap e.source).getD e.source,
    target := (aget idMap e.target).getD e.target }

/-- The duplicate-edge resolution of merge.py lines 71–84: keep `cur`
unless the later edge `e` has strictly higher confidence; append the
loser's snippet to the survivor's when non-empty and not already a
substring (in Python the emptiness test is subsumed by the substring
test, since `"" in s` always holds); union `"duplicate"` into the
survivor's flags (`list({*flags, "duplicate"})`, modelled in
first-occurrence order). -/
def dupMerge (cur e : Edge) : Edge :=
  if e.confidence ≤ cur.confidence then
    let cur1 :=
      if ¬ e.evidence.snippet = "" ∧ ¬ subStrS e.evidence.snippet cur.evidence.snippet
      then { cur with evidence := { cur.evidence with
               snippet := pyStrip cur.evidence.snippet ++ "\n" ++ pyStrip e.evidence.snippet } }
      else cur
    { cur1 with flags := dedupFirst (cur1.flags ++ ["duplicate"]) }
  else
    let e1 :=
      if ¬ cur.evidence.snippet = "" ∧ ¬ subStrS cur.evidence.snippet e.evidence.snippet
      then { e with evidence := { e.evidence with
               snippet := pyStrip e.evidence.snippet ++ "\n" ++ pyStrip cur.evidence.snippet } }
      else e
    { e1 with flags := dedupFirst (e1.flags ++ ["duplicate"]) }

/-- The edge loop of `merge_synonyms` (merge.py lines 57–84).  State:
`(out_edges, edges_removed)`. -/
def edgeStep (idMap : List (String × String))
    (st : List (EKey × Edge) × Nat) (e : Edge) : List (EKey × Edge) × Nat :=
  let e1 := remapEdge idMap e
  let k : EKey := ((e1.source, e1.target), e1.relation)
  match aget st.1 k with
  | Option.none => (st.1 ++ [(k, e1)], st.2)
  | some cur => (aset st.1 k (dupMerge cur e1), st.2 + 1)

def edgePhase (idMap : List (String × String)) (edges : List Edge) :
    List (EKey × Edge) × Nat :=
  edges.foldl (edgeStep idMap) ([], 0)

/-- One step of `by_pair.setdefault((s, t), set()).add(rel)` (merge.py
lines 88–89). -/
def byPairStep (bp : List ((String × String) × List String)) (k : EKey) :
    List ((String × String) × List String) :=
  match aget bp k.1 with
  | Option.none => bp ++ [(k.1, [k.2])]
  | some rs => if k.2 ∈ rs then bp else aset bp k.1 (rs ++ [k.2])

/-- `by_pair` (merge.py lines 87–89): group the surviving keys by
`(source, target)`, collecting the distinct relations of each pair
(`set` modelled as a duplicate-free list in first-insertion order). -/
def byPair (keys : List EKey) : List ((String × String) × List String) :=
  keys.foldl byPairStep []

/-- The conflict update applied to one participating edge (merge.py lines
96–101): append `"conflict"` only when absent, multiply confidence by 0.8,
clamped to [0,1]. -/
def bumpConflict (e : Edge) : Edge :=
  { e with
    flags := if "conflict" ∈ e.flags then e.flags else e.flags ++ ["conflict"],
    confidence := qmax 0 (qmin 1 (e.confidence * (4 / 5))) }

/-- One `out_edges[(s, t, rel)]` update of the conflict loop.  The lookup
never fails in the source (the key comes from `out_edges.keys()`); a
failed lookup leaves the state unchanged. -/
def conflictStep (st : List (EKey × Edge) × Nat) (k : EKey) :
    List (EKey × Edge) × Nat :=
  match aget st.1 k with
  | Option.none => st
  | some e =>
    (aset st.1 k (bumpConflict e), st.2 + (if "conflict" ∈ e.flags then 0 else 1))

/-- The conflict-marking loop of merge.py lines 86–101. -/
def conflictPhase (oe : List (EKey × Edge)) : List (EKey × Edge) × Nat :=
  (byPair (oe.map Prod.fst)).foldl
    (fun st pr =>
      if pr.2.length ≤ 1 then st
      else pr.2.foldl (fun st2 rel => conflictStep st2 (pr.1, rel)) st)
    (oe, 0)

/-- `merge_synonyms` (merge.py lines 39–104). -/
def merge_synonyms (nodes : List Node) (edges : List Edge) :
    List Node × List Edge × MergeStats :=
  let np := nodePhase nodes
  let ep := edgePhase np.1 edges
  let cp := conflictPhase ep.1
  (np.2.1.map Prod.snd, cp.1.map Prod.snd,
   { nodes_merged := np.2.2, edges_removed := ep.2, conflicts_flagged := cp.2 })

/-! ## SchemaValidator & Repairer (schema_validate.py)

`validate_graph`/`light_fix` manipulate untyped JSON-like dictionaries.
We model Python values with `PyVal`; Python ints and floats are merged
into one exact-rational numeric case (the claims never distinguish them),
and dictionary keys are strings (all keys in the graph schema are). -/

inductive PyVal where
  | pynone : PyVal
  | pybool : Bool → PyVal
  | num : ℚ → PyVal
  | str : String → PyVal
  | list : List PyVal → PyVal
  | dict : List (String × PyVal) → PyVal

abbrev PDict := List (String × PyVal)

/-- Python truthiness. -/
def truthy : PyVal → Bool
  | PyVal.pynone => false
  | PyVal.pybool b => b
  | PyVal.num q => ¬ q = 0
  | PyVal.str s => ¬ s = ""
  | PyVal.list l => ¬ l.isEmpty
  | PyVal.dict d => ¬ d.isEmpty

/-- `d.get(k)` with default `None`. -/
def dgetD (d : PDict) (k : String) : PyVal :=
  (aget d k).getD PyVal.pynone

/-- `str(v)` for the values that can reach it (node ids/domains and edge
endpoint/relation fields).  For strings this is the identity — the only
case exercised by the claims; the remaining cases are coarse stand-ins
for Python's repr and are never compared against anything. -/
def pyStr : PyVal → String
  | PyVal.pynone => "None"
  | PyVal.pybool b => if b then "True" else "False"
  | PyVal.num q => toString q.num
  | PyVal.str s => s
  | PyVal.list _ => "<list>"
  | PyVal.dict _ => "<dict>"

/-- `x or []`. -/
def orEmptyList (v : PyVal) : PyVal :=
  if truthy v then v else PyVal.list []

/-- Python `list(x)` on the iterables that occur (lists, strings — one
single-character string per element — and dicts, yielding keys);
any other truthy value raises `TypeError`, modelled as `none`. -/
def pyIter : PyVal → Option (List PyVal)
  | PyVal.list l => some l
  | PyVal.str s => some (s.data.map (fun c => PyVal.str (String.mk [c])))
  | PyVal.dict d => some (d.map (fun kv => PyVal.str kv.1))
  | _ => Option.none

/-! ### validate_graph

`validate_graph` (schema_validate.py lines 11–25) is
`GraphResult.model_validate`.  We model Pydantic validation of the field
declarations of models.py structurally (strict types; Pydantic's lax
numeric-string coercions are not modelled — every concrete instance in
this file uses exactly-typed values, on which the two agree). -/

def isStrV : PyVal → Bool
  | PyVal.str _ => true
  | _ => false

def isOptStrV : PyVal → Bool
  | PyVal.str _ => true
  | PyVal.pynone => true
  | _ => false

/-- A field that may be absent, else must satisfy `p`. -/
def optField (d : PDict) (k : String) (p : PyVal → Bool) : Bool :=
  match aget d k with
  | Option.none => true
  | some v => p v

def isConfV : PyVal → Bool
  | PyVal.num q => decide (0 ≤ q) && decide (q ≤ 1)
  | _ => false

/-- `Evidence.model_validate` on a dict value. -/
def validEvidence : PyVal → Bool
  | PyVal.dict d =>
    (match aget d "title" with | some v => isStrV v | _ => false) &&
    (match aget d "snippet" with | some v => isStrV v | _ => false) &&
    optField d "url" isOptStrV && optField d "domain" isOptStrV
  | _ => false

def validNode : PyVal → Bool
  | PyVal.dict d =>
    (match aget d "id" with | some v => isStrV v | _ => false) &&
    (match aget d "name" with | some v => isStrV v | _ => false) &&
    (match aget d "domain" with | some v => isStrV v | _ => false) &&
    optField d "definition" isOptStrV && optField d "confidence" isConfV
  | _ => false

def validEdge : PyVal → Bool
  | PyVal.dict d =>
    optField d "id" isOptStrV &&
    (match aget d "source" with | some v => isStrV v | _ => false) &&
    (match aget d "target" with | some v => isStrV v | _ => false) &&
    (match aget d "relation" with
     | some (PyVal.str r) => relWhitelist.contains r | _ => false) &&
    (match aget d "explanation" with | some v => isStrV v | _ => false) &&
    (match aget d "evidence" with | some v => validEvidence v | _ => false) &&
    optField d "confidence" isConfV &&
    optField d "checked" (fun v => match v with | PyVal.pybool _ => true | _ => false) &&
    optField d "check_reason" isOptStrV &&
    optField d "flags" (fun v => match v with
      | PyVal.list l => l.all isStrV | _ => false)
  | _ => false

def isIntV : PyVal → Bool
  | PyVal.num q => decide (q.den = 1)
  | _ => false

def validMeta : PyVal → Bool
  | PyVal.dict d =>
    (match aget d "generated_at" with | some v => isStrV v | _ => false) &&
    (match aget d "version" with | some v => isStrV v | _ => false) &&
    (match aget d "checker_summary" with
     | some (PyVal.dict cs) =>
       ["schema_fixed", "edges_checked", "edges_failed", "edges_downgraded",
        "dedup_nodes_merged", "dedup_edges_removed", "conflicts_flagged",
        "passed", "failed"].all (fun k => optField cs k isIntV)
     | _ => false) &&
    optField d "agent_trace"
      (fun v => match v with | PyVal.pynone => true | PyVal.dict _ => true | _ => false)
  | _ => false

/-- The boolean verdict of `validate_graph` (schema_validate.py lines
11–25); the rendered error list is not modelled (no claim reads it). -/
def validate_graph (graph_dict : PyVal) : Bool :=
  match graph_dict with
  | PyVal.dict d =>
    (match aget d "concept" with | some v => isStrV v | _ => false) &&
    (match aget d "nodes" with
     | some (PyVal.list ns) => ns.all validNode | _ => false) &&
    (match aget d "edges" with
     | some (PyVal.list es) => es.all validEdge | _ => false) &&
    (match aget d "meta" with | some v => validMeta v | _ => false)
  | _ => false

/-! ### light_fix -/

/-- The four top-level `setdefault`s of schema_validate.py lines 40–43.
Each counter consults the *original* dict (`graph_dict`), so the counts
are correct even though `g` was already updated. -/
def topDefaults (g0 : PDict) : PDict × Nat :=
  (asetdefault (asetdefault (asetdefault (asetdefault g0
      "concept" (PyVal.str "Unknown"))
      "nodes" (PyVal.list []))
      "edges" (PyVal.list []))
      "meta" (PyVal.dict []),
   (if hasKey g0 "concept" then 0 else 1) +
   (if hasKey g0 "nodes" then 0 else 1) +
   (if hasKey g0 "edges" then 0 else 1) +
   (if hasKey g0 "meta" then 0 else 1))

/-- The meta block of schema_validate.py lines 45–49.  Note the source's
`fixed += 1 if "generated_at" not in meta else 0` tests run *after* the
corresponding `setdefault`, so they never fire: the meta stage fixes keys
without counting.  `dict(g.get("meta") or {})` raises on a truthy
non-dict. -/
def metaStage (g : PDict) : Option PDict :=
  let v := orEmptyList (dgetD g "meta")
  match v with
  | PyVal.list l => if l.isEmpty then some (metaSet g []) else Option.none
  | PyVal.dict m => some (metaSet g m)
  | _ => Option.none
where
  metaSet (g : PDict) (m : PDict) : PDict :=
    aset g "meta" (PyVal.dict
      (asetdefault (asetdefault (asetdefault m
        "generated_at" (PyVal.str ""))
        "version" (PyVal.str "v1"))
        "checker_summary" (PyVal.dict [])))

/-- The `node_domain` index of schema_validate.py lines 52–55. -/
def nodeDomainOf (ns : List PyVal) : List (String × String) :=
  ns.foldl
    (fun acc n =>
      match n with
      | PyVal.dict nd =>
        if truthy (dgetD nd "id") && truthy (dgetD nd "domain") then
          aset acc (pyStr (dgetD nd "id")) (pyStr (dgetD nd "domain"))
        else acc
      | _ => acc)
    []

/-- The `flags` default of schema_validate.py lines 68–70: absent or
non-list flags become the empty list. -/
def fixFlags (ed : PDict) : PDict × Nat :=
  match aget ed "flags" with
  | some (PyVal.list _) => (ed, 0)
  | _ => (aset ed "flags" (PyVal.list []), 1)

/-- `if k not in l: l[k] = v; fixed += 1` — the counted completion step of
schema_validate.py lines 75–80. -/
def ensureK (l : PDict) (k : String) (v : PyVal) : PDict × Nat :=
  if hasKey l k then (l, 0) else (aset l k v, 1)

def isDictV : PyVal → Bool
  | PyVal.dict _ => true
  | _ => false

/-- `if "url" not in ev: ev["url"] = None` — the uncounted default of
schema_validate.py line 82. -/
def ensureK0 (l : PDict) (k : String) (v : PyVal) : PDict :=
  if hasKey l k then l else aset l k v

/-- The `domain` inference of schema_validate.py lines 84–88: a missing
`evidence.domain` is looked up from the target node's domain. -/
def ensureDomain (nd : List (String × String)) (ee : PDict) (l : PDict) :
    PDict × Nat :=
  if hasKey l "domain" then (l, 0)
  else
    let tv := dgetD ee "target"
    let tid := if truthy tv then pyStr tv else ""
    (aset l "domain"
      (match aget nd tid with
       | some dom => PyVal.str dom
       | Option.none => PyVal.pynone), 1)

/-- The evidence completion of schema_validate.py lines 73–89: ensure
`title`/`snippet`/`url` and infer a missing `domain` from the target
node's domain. -/
def fixEv (nd : List (String × String)) (ee : PDict) : PDict × Nat :=
  let ev0 : PDict :=
    match aget ee "evidence" with
    | some (PyVal.dict d) => d
    | _ => []
  let q1 : PDict × Nat := ensureK ev0 "title" (PyVal.str "")
  let q2 : PDict × Nat := ensureK q1.1 "snippet" (PyVal.str "")
  let q3 : PDict := ensureK0 q2.1 "url" PyVal.pynone
  let q4 : PDict × Nat := ensureDomain nd ee q3
  (aset ee "evidence" (PyVal.dict q4.1), q1.2 + q2.2 + q4.2)

/-- The deterministic-id assignment of schema_validate.py lines 91–93. -/
def fixId (ee : PDict) : PDict × Nat :=
  if !truthy (dgetD ee "id") && truthy (dgetD ee "source") &&
     truthy (dgetD ee "target") && truthy (dgetD ee "relation") then
    (aset ee "id" (PyVal.str (sha12
      (pyStr (dgetD ee "source") ++ "|" ++ pyStr (dgetD ee "relation") ++ "|" ++
       pyStr (dgetD ee "target")))), 1)
  else (ee, 0)

/-- The per-edge repair of schema_validate.py lines 67–93: default
`flags`/`check_reason`, complete the evidence dict (inferring `domain`
from the target node), and assign a deterministic id when absent. -/
def fixEdge (nd : List (String × String)) (ed : PDict) : PDict × Nat :=
  let p1 := fixFlags ed
  let e1 := asetdefault p1.1 "check_reason" PyVal.pynone
  let p2 := fixEv nd e1
  let p3 := fixId p2.1
  (p3.1, p1.2 + p2.2 + p3.2)

/-- The edge loop of schema_validate.py lines 63–96: non-dict entries are
skipped (`continue`); repaired edges are appended in input order and the
per-edge fix counts summed. -/
def edgesFold (nd : List (String × String)) : List PyVal → List PyVal × Nat
  | [] => ([], 0)
  | PyVal.dict ed :: es =>
    let r := fixEdge nd ed
    let rest := edgesFold nd es
    (PyVal.dict r.1 :: rest.1, r.2 + rest.2)
  | _ :: es => edgesFold nd es

/-- `light_fix` (schema_validate.py lines 28–98).  `none` models a Python
exception (non-dict input, truthy non-dict `meta`, or a non-iterable
truthy `nodes`/`edges` value); the `errors` argument is unused, as in the
source. -/
def light_fix (graph_dict : PyVal) (errors : List String) : Option (PDict × Nat) :=
  match graph_dict with
  | PyVal.dict g0 =>
    let t := topDefaults g0
    match metaStage t.1 with
    | Option.none => Option.none
    | some g2 =>
      match pyIter (orEmptyList (dgetD g2 "nodes")) with
      | Option.none => Option.none
      | some ns =>
        let nd := nodeDomainOf ns
        match pyIter (orEmptyList (dgetD g2 "edges")) with
        | Option.none => Option.none
        | some es =>
          let r := edgesFold nd es
          some (aset g2 "edges" (PyVal.list r.1), t.2 + r.2)
  | _ => Option.none

/-- All optional keys the repairer would otherwise insert are explicitly
present in an edge dict: `flags`, `check_reason`, `evidence.url`,
`evidence.domain`, and a truthy `id`. -/
def edgeExplicit (ed : PDict) : Bool :=
  (match aget ed "flags" with
   | some (PyVal.list _) => true
   | _ => false) &&
  hasKey ed "check_reason" &&
  (match aget ed "evidence" with
   | some (PyVal.dict ev) =>
     hasKey ev "title" && hasKey ev "snippet" && hasKey ev "url" && hasKey ev "domain"
   | _ => false) &&
  truthy (dgetD ed "id")

/-- The state every edge dict is in after one pass of the per-edge
repair: flags is a list, the evidence dict carries all four keys, and the
id is either truthy or impossible to synthesize (an endpoint or the
relation is falsy). -/
def edgeFixedB (ee : PDict) : Bool :=
  (match aget ee "flags" with
   | some (PyVal.list _) => true
   | _ => false) &&
  (match aget ee "evidence" with
   | some (PyVal.dict ev) =>
     hasKey ev "title" && hasKey ev "snippet" && hasKey ev "url" && hasKey ev "domain"
   | _ => false) &&
  (truthy (dgetD ee "id") ||
   !(truthy (dgetD ee "source") && truthy (dgetD ee "target") &&
     truthy (dgetD ee "relation")))

/-- Every edge dict of the draft is fully explicit. -/
def graphExplicit (g : PyVal) : Bool :=
  match g with
  | PyVal.dict g0 =>
    (match aget g0 "edges" with
     | some (PyVal.list es) =>
       es.all (fun e =>
         match e with
         | PyVal.dict ed => edgeExplicit ed
         | _ => false)
     | _ => false)
  | _ => false

/-! ## Concrete instances used by witnesses and counterexamples -/

def exMeta : Meta := { generated_at := "", version := "v1", checker_summary := {} }

def exE1 : Edge :=
  { id := some "e1", source := "a", target := "b", relation := "is_a",
    explanation := "expl", evidence := { title := "", snippet := "sss" },
    confidence := 1 }

def exG1 : GraphResult :=
  { concept := "c", nodes := [], edges := [exE1], meta := exMeta }

def exE2 : Edge :=
  { id := some "e2", source := "a", target := "b", relation := "is_a",
    explanation := "expl", evidence := { title := "t", snippet := "zzzz qqqq" },
    confidence := 1 / 5 }

def exG2 : GraphResult :=
  { concept := "c", nodes := [], edges := [exE2], meta := exMeta }

def exN9 : Node := { id := "t1", name := "gradient", domain := "CS" }

def exE9 : Edge :=
  { id := some "e9", source := "s1", target := "t1", relation := "explains",
    explanation := "gradient descent training method",
    evidence := { title := "t", snippet := "gradient descent improves training" },
    confidence := 9 / 10 }

def exG9 : GraphResult :=
  { concept := "c", nodes := [exN9], edges := [exE9], meta := exMeta }

def exE10 : Edge :=
  { id := some "e10", source := "a", target := "b", relation := "is_a",
    explanation := "expl", evidence := { title := "t", snippet := "!!!" },
    confidence := 4 / 5 }

def exG10 : GraphResult :=
  { concept := "c", nodes := [], edges := [exE10], meta := exMeta }

def exNA : Node := { id := "n1", name := "alpha", domain := "CS" }

def exNB : Node := { id := "n2", name := "beta", domain := "CS" }

def exD1 : Edge :=
  { id := some "d1", source := "n1", target := "n2", relation := "is_a",
    explanation := "x", evidence := { title := "t", snippet := "first snip" },
    confidence := 1 / 2 }

def exD2 : Edge :=
  { id := some "d2", source := "n1", target := "n2", relation := "is_a",
    explanation := "y", evidence := { title := "t", snippet := "second snip" },
    confidence := 3 / 4 }

def exC4A : Edge :=
  { id := some "c4a", source := "n1", target := "n2", relation := "is_a",
    explanation := "x", evidence := { title := "t", snippet := "s" },
    confidence := 1 / 2, flags := ["conflict", "conflict"] }

def exC4B : Edge :=
  { id := some "c4b", source := "n1", target := "n2", relation := "explains",
    explanation := "y", evidence := { title := "t", snippet := "s2" },
    confidence := 1 / 2 }

/-- A surviving-edge table with one conflicting pair, as produced by the
dedup loop for `exC4A`/`exC4B`. -/
def exOE4 : List (EKey × Edge) :=
  [((("n1", "n2"), "is_a"), exC4A), ((("n1", "n2"), "explains"), exC4B)]

def exE5 : Edge :=
  { id := some "e5", source := "n1", target := "ghost", relation := "is_a",
    explanation := "x", evidence := { title := "t", snippet := "s" },
    confidence := 1 / 2 }

def exE5w : Edge :=
  { id := some "e5w", source := "n1", target := "n2", relation := "used_in",
    explanation := "x", evidence := { title := "t", snippet := "s" },
    confidence := 1 / 2 }

/-- A minimal well-formed `meta` dict. -/
def exMetaD : PDict :=
  [("generated_at", PyVal.str ""), ("version", PyVal.str "v1"),
   ("checker_summary", PyVal.dict [])]

/-- A schema-valid draft whose single edge omits `evidence.domain`. -/
def exG6 : PDict :=
  [("concept", PyVal.str "c"), ("nodes", PyVal.list []),
   ("edges", PyVal.list [PyVal.dict
     [("id", PyVal.str "e1"), ("source", PyVal.str "a"), ("target", PyVal.str "b"),
      ("relation", PyVal.str "is_a"), ("explanation", PyVal.str "x"),
      ("evidence", PyVal.dict [("title", PyVal.str "t"), ("snippet", PyVal.str "s"),
        ("url", PyVal.pynone)]),
      ("flags", PyVal.list []), ("check_reason", PyVal.pynone)]]),
   ("meta", PyVal.dict exMetaD)]

/-- A schema-valid, fully explicit draft. -/
def exG6w : PDict :=
  [("concept", PyVal.str "c"), ("nodes", PyVal.list []),
   ("edges", PyVal.list [PyVal.dict
     [("id", PyVal.str "e1"), ("source", PyVal.str "a"), ("target", PyVal.str "b"),
      ("relation", PyVal.str "is_a"), ("explanation", PyVal.str "x"),
      ("evidence", PyVal.dict [("title", PyVal.str "t"), ("snippet", PyVal.str "s"),
        ("url", PyVal.pynone), ("domain", PyVal.pynone)]),
      ("flags", PyVal.list []), ("check_reason", PyVal.pynone)]]),
   ("meta", PyVal.dict exMetaD)]

/-- A draft whose edges list contains a non-dict entry. -/
def exG8 : PDict :=
  [("concept", PyVal.str "c"), ("nodes", PyVal.list []),
   ("edges", PyVal.list [PyVal.num 5]), ("meta", PyVal.dict exMetaD)]

/-- A draft with one dict edge entry (lacking most keys). -/
def exG8w : PDict :=
  [("concept", PyVal.str "c"), ("nodes", PyVal.list [PyVal.str "x"]),
   ("edges", PyVal.list [PyVal.dict [("source", PyVal.str "a")]]),
   ("meta", PyVal.dict exMetaD)]

/-- The repaired form of `exG8w`. -/
def exG8wOut : PDict :=
  [("concept", PyVal.str "c"), ("nodes", PyVal.list [PyVal.str "x"]),
   ("edges", PyVal.list [PyVal.dict
     [("source", PyVal.str "a"), ("flags", PyVal.list []),
      ("check_reason", PyVal.pynone),
      ("evidence", PyVal.dict [("title", PyVal.str ""), ("snippet", PyVal.str ""),
        ("url", PyVal.pynone), ("domain", PyVal.pynone)])]]),
   ("meta", PyVal.dict exMetaD)]

/-! ## Association-list lemmas -/

theorem aget_aset_self {κ α : Type} [DecidableEq κ] (l : List (κ × α)) (k : κ) (v : α) :
    aget (aset l k v) k = some v := by
  induction l with
  | nil => simp [aget, aset]
  | cons p t ih =>
    by_cases h : p.1 = k
    · simp [aset, h, aget]
    · simp [aset, h, aget, ih]

theorem aget_aset_ne {κ α : Type} [DecidableEq κ] (l : List (κ × α)) (k' k : κ) (v : α)
    (h : ¬ k' = k) : aget (aset l k' v) k = aget l k := by
  induction l with
  | nil => simp [aget, aset, h]
  | cons p t ih =>
    obtain ⟨k0, v0⟩ := p
    by_cases h2 : k0 = k'
    · subst h2
      simp [aset, aget, h]
    · by_cases h3 : k0 = k
      · subst h3
        simp [aset, h2, aget]
      · simp [aset, h2, aget, h3, ih]

theorem aget_append {κ α : Type} [DecidableEq κ] (l1 l2 : List (κ × α)) (k : κ) :
    aget (l1 ++ l2) k =
      (match aget l1 k with
       | some v => some v
       | Option.none => aget l2 k) := by
  induction l1 with
  | nil => simp [aget]
  | cons p t ih =>
    by_cases h : p.1 = k <;> simp [aget, h, ih]

theorem asetdefault_of_hasKey {κ α : Type} [DecidableEq κ] (l : List (κ × α)) (k : κ)
    (v : α) (h : hasKey l k = true) : asetdefault l k v = l := by
  unfold asetdefault
  unfold hasKey at h
  cases hg : aget l k with
  | none => rw [hg] at h; simp [Option.isSome] at h
  | some w => simp

theorem aget_asetdefault_ne {κ α : Type} [DecidableEq κ] (l : List (κ × α)) (k' k : κ)
    (v : α) (h : ¬ k' = k) : aget (asetdefault l k' v) k = aget l k := by
  unfold asetdefault
  cases hg : aget l k' with
  | none =>
    rw [aget_append]
    cases hk : aget l k with
    | none => simp [aget, h]
    | some w => simp
  | some w => simp

theorem hasKey_asetdefault_self {κ α : Type} [DecidableEq κ] (l : List (κ × α)) (k : κ)
    (v : α) : hasKey (asetdefault l k v) k = true := by
  unfold asetdefault hasKey
  cases hg : aget l k with
  | none => rw [aget_append, hg]; simp [aget]
  | some w => simp [hg]

theorem hasKey_aset_self {κ α : Type} [DecidableEq κ] (l : List (κ × α)) (k : κ)
    (v : α) : hasKey (aset l k v) k = true := by
  simp [hasKey, aget_aset_self]

theorem aset_self_of_aget {κ α : Type} [DecidableEq κ] (l : List (κ × α)) (k : κ)
    (v : α) (h : aget l k = some v) : aset l k v = l := by
  induction l with
  | nil => simp [aget] at h
  | cons p t ih =>
    by_cases h2 : p.1 = k
    · unfold aget at h
      rw [if_pos h2] at h
      cases p with
      | mk k0 v0 =>
        simp at h2
        subst h2
        simp at h
        subst h
        simp [aset]
    · unfold aget at h
      rw [if_neg h2] at h
      simp [aset, h2, ih h]

theorem aget_mem {κ α : Type} [DecidableEq κ] (l : List (κ × α)) (k : κ) (v : α)
    (h : aget l k = some v) : (k, v) ∈ l := by
  induction l with
  | nil => simp [aget] at h
  | cons p t ih =>
    by_cases h2 : p.1 = k
    · unfold aget at h
      rw [if_pos h2] at h
      cases p with
      | mk k0 v0 =>
        simp at h2
        subst h2
        simp at h
        subst h
        simp
    · unfold aget at h
      rw [if_neg h2] at h
      exact List.mem_cons_of_mem _ (ih h)

theorem mem_aset {κ α : Type} [DecidableEq κ] (l : List (κ × α)) (k : κ) (v : α)
    (p : κ × α) (h : p ∈ aset l k v) : p ∈ l ∨ p = (k, v) := by
  induction l with
  | nil => simp [aset] at h; simp [h]
  | cons q t ih =>
    by_cases h2 : q.1 = k
    · simp [aset, h2] at h
      rcases h with h | h
      · right; simp [h]
      · left; exact List.mem_cons_of_mem _ h
    · simp [aset, h2] at h
      rcases h with h | h
      · left; simp [h]
      · rcases ih h with h3 | h3
        · left; exact List.mem_cons_of_mem _ h3
        · right; exact h3

theorem hasKey_ne_nil {κ α : Type} [DecidableEq κ] (l : List (κ × α)) (k : κ)
    (h : hasKey l k = true) : l.isEmpty = false := by
  cases l with
  | nil => simp [hasKey, aget, Option.isSome] at h
  | cons p t => simp

/-! ## Field-preservation lemmas for the checker -/

@[simp] theorem ensureId_source (e : Edge) : (ensureId e).source = e.source := by
  unfold ensureId
  cases e.id with
  | none => simp
  | some s => by_cases h : s = "" <;> simp [h]

@[simp] theorem ensureId_target (e : Edge) : (ensureId e).target = e.target := by
  unfold ensureId
  cases e.id with
  | none => simp
  | some s => by_cases h : s = "" <;> simp [h]

@[simp] theorem ensureId_relation (e : Edge) : (ensureId e).relation = e.relation := by
  unfold ensureId
  cases e.id with
  | none => simp
  | some s => by_cases h : s = "" <;> simp [h]

@[simp] theorem ensureId_explanation (e : Edge) :
    (ensureId e).explanation = e.explanation := by
  unfold ensureId
  cases e.id with
  | none => simp
  | some s => by_cases h : s = "" <;> simp [h]

@[simp] theorem ensureId_evidence (e : Edge) : (ensureId e).evidence = e.evidence := by
  unfold ensureId
  cases e.id with
  | none => simp
  | some s => by_cases h : s = "" <;> simp [h]

@[simp] theorem ensureId_confidence (e : Edge) :
    (ensureId e).confidence = e.confidence := by
  unfold ensureId
  cases e.id with
  | none => simp
  | some s => by_cases h : s = "" <;> simp [h]

@[simp] theorem ensureId_flags (e : Edge) : (ensureId e).flags = e.flags := by
  unfold ensureId
  cases e.id with
  | none => simp
  | some s => by_cases h : s = "" <;> simp [h]

/-- `run_check` rewrites the edge list elementwise via `checkEdge`. -/
theorem run_check_edges (g : GraphResult) (strict : Bool) :
    (run_check g strict).edges =
      g.edges.map (fun e => (checkEdge (nodeNameMap g.nodes) strict e).1) := by
  unfold run_check
  suffices h : ∀ (es : List Edge) (nm : List (String × String))
      (acc : List Edge × Nat × Nat × Nat × Nat),
      (es.foldl
        (fun (acc : List Edge × Nat × Nat × Nat × Nat) e =>
          let r := checkEdge nm strict e
          (acc.1 ++ [r.1],
           acc.2.1 + (if r.2.1 then 1 else 0),
           acc.2.2.1 + (if r.2.1 then 0 else 1),
           acc.2.2.2.1 + (if r.2.2 then 1 else 0),
           acc.2.2.2.2 + 1)) acc).1 =
        acc.1 ++ es.map (fun e => (checkEdge nm strict e).1) by
    simpa using h g.edges (nodeNameMap g.nodes) ([], 0, 0, 0, 0)
  intro es
  induction es with
  | nil => intro nm acc; simp
  | cons e t ih =>
    intro nm acc
    simp only [List.foldl_cons, List.map_cons]
    rw [ih]
    simp

theorem run_check_get (g : GraphResult) (strict : Bool) (i : Nat) :
    ((run_check g strict).edges)[i]? =
      (g.edges[i]?).map (fun e => (checkEdge (nodeNameMap g.nodes) strict e).1) := by
  rw [run_check_edges]
  simp

/-! ## evidence_check branch characterizations -/

/-- The source name fed to `evidence_check` for edge `e` inside
`run_check`: `node_name.get(e.source, e.source)` (checker.py line 68). -/
def snameOf (nm : List (String × String)) (e : Edge) : String :=
  (aget nm e.source).getD e.source

/-- Target counterpart (checker.py line 69). -/
def tnameOf (nm : List (String × String)) (e : Edge) : String :=
  (aget nm e.target).getD e.target

/-- `evidence_check` only reads `evidence` and `explanation`. -/
theorem evidence_check_congr (a b : Edge) (sn tn : String)
    (hev : a.evidence = b.evidence) (hex : a.explanation = b.explanation) :
    evidence_check a sn tn = evidence_check b sn tn := by
  unfold evidence_check
  rw [hev, hex]

theorem evidence_check_hard (edge : Edge) (sn tn : String)
    (h : edge.evidence.title = "" ∨ edge.evidence.snippet = "") :
    evidence_check edge sn tn =
      (false, 0, "Missing evidence.title or evidence.snippet.") := by
  unfold evidence_check
  rw [if_pos h]

theorem evidence_check_noexp (edge : Edge) (sn tn : String)
    (h1 : ¬ (edge.evidence.title = "" ∨ edge.evidence.snippet = ""))
    (h2 : pyStrip edge.explanation = "") :
    evidence_check edge sn tn = (false, 0, "Missing explanation.") := by
  unfold evidence_check
  rw [if_neg h1, if_pos h2]

theorem evidence_check_emptysn (edge : Edge) (sn tn : String)
    (h1 : ¬ (edge.evidence.title = "" ∨ edge.evidence.snippet = ""))
    (h2 : ¬ pyStrip edge.explanation = "")
    (h3 : norm edge.evidence.snippet = "") :
    evidence_check edge sn tn = (false, 0, "Empty evidence snippet.") := by
  unfold evidence_check
  rw [if_neg h1, if_neg h2]
  simp [h3]

theorem evidence_check_nomention (edge : Edge) (sn tn : String)
    (h1 : ¬ (edge.evidence.title = "" ∨ edge.evidence.snippet = ""))
    (h2 : ¬ pyStrip edge.explanation = "")
    (h3 : ¬ norm edge.evidence.snippet = "")
    (h4 : mentions (norm sn) (norm edge.evidence.snippet) = false)
    (h5 : mentions (norm tn) (norm edge.evidence.snippet) = false) :
    evidence_check edge sn tn =
      (false, 3 / 20, "Evidence snippet does not mention source/target concept.") := by
  unfold evidence_check
  rw [if_neg h1, if_neg h2, if_neg h3, if_pos (by simp [h4, h5])]


theorem evidence_check_pass (edge : Edge) (sn tn : String)
    (h1 : ¬ (edge.evidence.title = "" ∨ edge.evidence.snippet = ""))
    (h2 : ¬ pyStrip edge.explanation = "")
    (h3 : ¬ norm edge.evidence.snippet = "")
    (h4 : mentions (norm sn) (norm edge.evidence.snippet) = true ∨
          mentions (norm tn) (norm edge.evidence.snippet) = true) :
    evidence_check edge sn tn =
      (true,
       clamp01 (11 / 20 + 7 / 100 *
         (overlapCount (norm edge.evidence.snippet) (norm edge.explanation) : ℚ)),
       "Evidence supports the relation.") := by
  unfold evidence_check
  rw [if_neg h1, if_neg h2, if_neg h3, if_neg (not_not_intro h4)]

/-! ## checkEdge characterizations -/

@[simp] theorem downgradeEdge_evidence (e : Edge) :
    (downgradeEdge e).evidence = e.evidence := by
  unfold downgradeEdge; split <;> simp

@[simp] theorem downgradeEdge_explanation (e : Edge) :
    (downgradeEdge e).explanation = e.explanation := by
  unfold downgradeEdge; split <;> simp

@[simp] theorem downgradeEdge_confidence (e : Edge) :
    (downgradeEdge e).confidence = e.confidence := by
  unfold downgradeEdge; split <;> simp

@[simp] theorem downgradeEdge_source (e : Edge) :
    (downgradeEdge e).source = e.source := by
  unfold downgradeEdge; split <;> simp

@[simp] theorem downgradeEdge_target (e : Edge) :
    (downgradeEdge e).target = e.target := by
  unfold downgradeEdge; split <;> simp

/-- When `evidence_check` rejects the (possibly downgraded) edge, the
`run_check` loop marks it unchecked and multiplies the prior confidence by
0.45, clamped — regardless of the score returned by `evidence_check`
(checker.py lines 83–89). -/
theorem checkEdge_fail (nm : List (String × String)) (strict : Bool) (e : Edge)
    (sc : ℚ) (reason : String)
    (h : evidence_check e (snameOf nm e) (tnameOf nm e) = (false, sc, reason)) :
    (checkEdge nm strict e).1.checked = false ∧
    (checkEdge nm strict e).1.confidence = clamp01 (e.confidence * (45 / 100)) ∧
    (checkEdge nm strict e).1.check_reason = some reason := by
  have hc : evidence_check (downgradeEdge (ensureId e))
      ((aget nm e.source).getD e.source) ((aget nm e.target).getD e.target) =
      (false, sc, reason) := by
    rw [evidence_check_congr _ e _ _ (by simp) (by simp)]
    simpa [snameOf, tnameOf] using h
  unfold checkEdge
  simp only [ensureId_source, ensureId_target]
  rw [hc]
  simp

/-- When `evidence_check` accepts, the loop marks the edge checked and
averages the prior confidence with the score (checker.py lines 78–82). -/
theorem checkEdge_pass (nm : List (String × String)) (strict : Bool) (e : Edge)
    (sc : ℚ) (reason : String)
    (h : evidence_check e (snameOf nm e) (tnameOf nm e) = (true, sc, reason)) :
    (checkEdge nm strict e).1.checked = true ∧
    (checkEdge nm strict e).1.confidence = clamp01 ((e.confidence + sc) / 2) ∧
    (checkEdge nm strict e).1.check_reason = some reason := by
  have hc : evidence_check (downgradeEdge (ensureId e))
      ((aget nm e.source).getD e.source) ((aget nm e.target).getD e.target) =
      (true, sc, reason) := by
    rw [evidence_check_congr _ e _ _ (by simp) (by simp)]
    simpa [snameOf, tnameOf] using h
  unfold checkEdge
  simp only [ensureId_source, ensureId_target]
  rw [hc]
  simp

/-! ## clamp01 lemmas -/

theorem qmax_eq_max (a b : ℚ) : qmax a b = max a b := by
  unfold qmax
  rw [max_def]

theorem qmin_eq_min (a b : ℚ) : qmin a b = min a b := by
  unfold qmin
  rw [min_def]

theorem clamp01_eq (x : ℚ) : clamp01 x = max 0 (min 1 x) := by
  unfold clamp01
  rw [qmax_eq_max, qmin_eq_min]

theorem clamp01_le_one (x : ℚ) : clamp01 x ≤ 1 := by
  rw [clamp01_eq]
  exact max_le (by norm_num) (min_le_left _ _)

theorem le_clamp01 (x y : ℚ) (h1 : y ≤ x) (h2 : y ≤ 1) : y ≤ clamp01 x := by
  rw [clamp01_eq]
  exact le_trans (le_min h2 h1) (le_max_right _ _)

/-! ## Claims about the EvidenceChecker

Batteries marks the rational field operations irreducible; making them
semireducible again lets `decide` evaluate concrete graphs (the kernel
ignores reducibility either way). -/

section RatEval

attribute [local semireducible] Rat.mul Rat.inv Rat.add Rat.sub Rat.ofScientific

/-- Claim C1, the part the code refutes: for an edge with empty
`evidence.title`, the edge fails but `run_check` sets the resulting
confidence to `prior * 0.45 = 9/20 ≠ 0`, not to 0. -/
theorem claim_C1_counterexample :
    exE1.evidence.title = "" ∧ exE1.confidence = 1 ∧
    (run_check exG1 true).edges.map (fun x => (x.checked, x.confidence)) =
      [(false, 9 / 20)] ∧
    ¬ (9 / 20 : ℚ) = 0 := by
  refine ⟨rfl, rfl, ?_, by decide⟩
  decide

/-- Claim C1 (amended): for every edge whose `evidence.title`,
`evidence.snippet`, or stripped `explanation` is empty, `run_check` fails
the edge immediately (`checked = false`, with one of the two hard-rule
reasons), and the resulting confidence is `clamp01(prior × 0.45)` — not 0
unless the prior was 0, since `run_check` discards the score returned by
`evidence_check` on failure. -/
theorem claim_C1_corrected (g : GraphResult) (strict : Bool) (i : Nat) (e : Edge)
    (hg : g.edges[i]? = some e)
    (he : e.evidence.title = "" ∨ e.evidence.snippet = "" ∨ pyStrip e.explanation = "") :
    ((run_check g strict).edges[i]?).map (fun x => (x.checked, x.confidence)) =
      some (false, clamp01 (e.confidence * (45 / 100))) ∧
    (((run_check g strict).edges[i]?).map (fun x => x.check_reason) =
        some (some "Missing evidence.title or evidence.snippet.") ∨
     ((run_check g strict).edges[i]?).map (fun x => x.check_reason) =
        some (some "Missing explanation.")) := by
  rw [run_check_get, hg]
  by_cases h1 : e.evidence.title = "" ∨ e.evidence.snippet = ""
  · obtain ⟨hck, hcf, hcr⟩ :=
      checkEdge_fail (nodeNameMap g.nodes) strict e 0 _ (evidence_check_hard e _ _ h1)
    exact ⟨by simp [hck, hcf], Or.inl (by simp [hcr])⟩
  · have h2 : pyStrip e.explanation = "" := by tauto
    obtain ⟨hck, hcf, hcr⟩ :=
      checkEdge_fail (nodeNameMap g.nodes) strict e 0 _ (evidence_check_noexp e _ _ h1 h2)
    exact ⟨by simp [hck, hcf], Or.inr (by simp [hcr])⟩

/-- Witness for `claim_C1_corrected` at the concrete graph `exG1`. -/
theorem claim_C1_witness :
    (exG1.edges[0]? = some exE1 ∧ exE1.evidence.title = "") ∧
    ((run_check exG1 true).edges[0]?).map (fun x => (x.checked, x.confidence)) =
      some (false, clamp01 (exE1.confidence * (45 / 100))) ∧
    (((run_check exG1 true).edges[0]?).map (fun x => x.check_reason) =
        some (some "Missing evidence.title or evidence.snippet.") ∨
     ((run_check exG1 true).edges[0]?).map (fun x => x.check_reason) =
        some (some "Missing explanation.")) :=
  ⟨⟨rfl, rfl⟩, claim_C1_corrected exG1 true 0 exE1 rfl (Or.inl rfl)⟩

/-- Claim C2, the part the code refutes: an edge passing the hard rule
whose snippet mentions neither endpoint ends with confidence
`prior × 0.45 = 9/100`, strictly below the claimed 0.15 floor. -/
theorem claim_C2_counterexample :
    (¬ exE2.evidence.title = "" ∧ ¬ exE2.evidence.snippet = "" ∧
     ¬ pyStrip exE2.explanation = "") ∧
    mentions (norm (snameOf (nodeNameMap exG2.nodes) exE2))
      (norm exE2.evidence.snippet) = false ∧
    mentions (norm (tnameOf (nodeNameMap exG2.nodes) exE2))
      (norm exE2.evidence.snippet) = false ∧
    (run_check exG2 true).edges.map (fun x => (x.checked, x.confidence)) =
      [(false, 9 / 100)] ∧
    (9 / 100 : ℚ) < 3 / 20 := by
  refine ⟨⟨by decide, by decide, by decide⟩, by decide, by decide, ?_, by decide⟩
  decide

/-- Claim C2 (amended): for every edge that passes the hard non-emptiness
rule, has a non-empty normalized snippet, and mentions neither endpoint
name, `run_check` fails the edge with the no-mention reason and sets the
resulting confidence to `clamp01(prior × 0.45)`; the 0.15 returned by
`evidence_check` is discarded, so the result can drop below 0.15. -/
theorem claim_C2_corrected (g : GraphResult) (strict : Bool) (i : Nat) (e : Edge)
    (hg : g.edges[i]? = some e)
    (h1 : ¬ (e.evidence.title = "" ∨ e.evidence.snippet = ""))
    (h2 : ¬ pyStrip e.explanation = "")
    (h3 : ¬ norm e.evidence.snippet = "")
    (h4 : mentions (norm (snameOf (nodeNameMap g.nodes) e))
            (norm e.evidence.snippet) = false)
    (h5 : mentions (norm (tnameOf (nodeNameMap g.nodes) e))
            (norm e.evidence.snippet) = false) :
    ((run_check g strict).edges[i]?).map
        (fun x => (x.checked, x.confidence, x.check_reason)) =
      some (false, clamp01 (e.confidence * (45 / 100)),
        some "Evidence snippet does not mention source/target concept.") := by
  rw [run_check_get, hg]
  obtain ⟨hck, hcf, hcr⟩ :=
    checkEdge_fail (nodeNameMap g.nodes) strict e (3 / 20) _
      (evidence_check_nomention e _ _ h1 h2 h3 h4 h5)
  simp [hck, hcf, hcr]

/-- Witness for `claim_C2_corrected` at the concrete graph `exG2`. -/
theorem claim_C2_witness :
    exG2.edges[0]? = some exE2 ∧
    ((run_check exG2 true).edges[0]?).map
        (fun x => (x.checked, x.confidence, x.check_reason)) =
      some (false, clamp01 (exE2.confidence * (45 / 100)),
        some "Evidence snippet does not mention source/target concept.") :=
  ⟨rfl, claim_C2_corrected exG2 true 0 exE2 rfl (by decide) (by decide) (by decide)
    (by decide) (by decide)⟩

/-- Claim C9, the part the code refutes: an edge with prior confidence
0.9 whose snippet mentions the target and shares exactly three long
tokens with its explanation passes with confidence
`(0.9 + 0.76)/2 = 0.83 < 0.9` — not between the original value and 1. -/
theorem claim_C9_counterexample :
    mentions (norm (tnameOf (nodeNameMap exG9.nodes) exE9))
      (norm exE9.evidence.snippet) = true ∧
    overlapCount (norm exE9.evidence.snippet) (norm exE9.explanation) = 3 ∧
    exE9.confidence = 9 / 10 ∧
    (run_check exG9 true).edges.map (fun x => (x.checked, x.confidence)) =
      [(true, 83 / 100)] ∧
    (83 / 100 : ℚ) < 9 / 10 := by
  refine ⟨by decide, by decide, rfl, ?_, by decide⟩
  decide

/-- Claim C9 (amended): for every edge passing the hard rule whose
normalized snippet mentions the target node's name and shares at least
three long tokens with the normalized explanation (as counted by the
checker), `run_check` sets `checked = true` and the resulting confidence
is `clamp01((prior + score)/2)`, which lies between `(prior + 0.76)/2`
and 1.0 — and may be *below* the prior when the prior exceeds the
score. -/
theorem claim_C9_corrected (g : GraphResult) (strict : Bool) (i : Nat) (e : Edge)
    (hg : g.edges[i]? = some e)
    (h1 : ¬ (e.evidence.title = "" ∨ e.evidence.snippet = ""))
    (h2 : ¬ pyStrip e.explanation = "")
    (h3 : ¬ norm e.evidence.snippet = "")
    (hm : mentions (norm (tnameOf (nodeNameMap g.nodes) e))
            (norm e.evidence.snippet) = true)
    (hov : 3 ≤ overlapCount (norm e.evidence.snippet) (norm e.explanation))
    (hc1 : e.confidence ≤ 1) :
    ((run_check g strict).edges[i]?).map (fun x => (x.checked, x.confidence)) =
      some (true, clamp01 ((e.confidence +
        clamp01 (11 / 20 + 7 / 100 *
          (overlapCount (norm e.evidence.snippet) (norm e.explanation) : ℚ))) / 2)) ∧
    (e.confidence + 76 / 100) / 2 ≤
      clamp01 ((e.confidence +
        clamp01 (11 / 20 + 7 / 100 *
          (overlapCount (norm e.evidence.snippet) (norm e.explanation) : ℚ))) / 2) ∧
    clamp01 ((e.confidence +
        clamp01 (11 / 20 + 7 / 100 *
          (overlapCount (norm e.evidence.snippet) (norm e.explanation) : ℚ))) / 2) ≤ 1 := by
  have hk : (3 : ℚ) ≤
      (overlapCount (norm e.evidence.snippet) (norm e.explanation) : ℚ) := by
    exact_mod_cast hov
  have hsc : (76 / 100 : ℚ) ≤ clamp01 (11 / 20 + 7 / 100 *
      (overlapCount (norm e.evidence.snippet) (norm e.explanation) : ℚ)) := by
    apply le_clamp01
    · linarith
    · norm_num
  refine ⟨?_, ?_, clamp01_le_one _⟩
  · rw [run_check_get, hg]
    obtain ⟨hck, hcf, hcr⟩ :=
      checkEdge_pass (nodeNameMap g.nodes) strict e _ _
        (evidence_check_pass e _ _ h1 h2 h3 (Or.inr hm))
    simp [hck, hcf]
  · apply le_clamp01
    · linarith
    · linarith

/-- Witness for `claim_C9_corrected` at the concrete graph `exG9`. -/
theorem claim_C9_witness :
    exG9.edges[0]? = some exE9 ∧
    ((run_check exG9 true).edges[0]?).map (fun x => (x.checked, x.confidence)) =
      some (true, clamp01 ((exE9.confidence +
        clamp01 (11 / 20 + 7 / 100 *
          (overlapCount (norm exE9.evidence.snippet) (norm exE9.explanation) : ℚ))) / 2)) ∧
    (exE9.confidence + 76 / 100) / 2 ≤
      clamp01 ((exE9.confidence +
        clamp01 (11 / 20 + 7 / 100 *
          (overlapCount (norm exE9.evidence.snippet) (norm exE9.explanation) : ℚ))) / 2) ∧
    clamp01 ((exE9.confidence +
        clamp01 (11 / 20 + 7 / 100 *
          (overlapCount (norm exE9.evidence.snippet) (norm exE9.explanation) : ℚ))) / 2) ≤ 1 :=
  ⟨rfl, claim_C9_corrected exG9 true 0 exE9 rfl (by decide) (by decide) (by decide)
    (by decide) (by decide) (by decide)⟩

/-- Claim C10 (confirmed): an edge whose title, snippet and stripped
explanation are all non-empty but whose snippet normalizes to the empty
string fails with reason "Empty evidence snippet.", `checked = false`,
and confidence `clamp01(prior × 0.45)`. -/
theorem claim_C10_confirmed (g : GraphResult) (strict : Bool) (i : Nat) (e : Edge)
    (hg : g.edges[i]? = some e)
    (h1 : ¬ (e.evidence.title = "" ∨ e.evidence.snippet = ""))
    (h2 : ¬ pyStrip e.explanation = "")
    (h3 : norm e.evidence.snippet = "") :
    ((run_check g strict).edges[i]?).map
        (fun x => (x.checked, x.confidence, x.check_reason)) =
      some (false, clamp01 (e.confidence * (45 / 100)),
        some "Empty evidence snippet.") := by
  rw [run_check_get, hg]
  obtain ⟨hck, hcf, hcr⟩ :=
    checkEdge_fail (nodeNameMap g.nodes) strict e 0 _
      (evidence_check_emptysn e _ _ h1 h2 h3)
  simp [hck, hcf, hcr]

/-! ## Lemmas for the GraphNormalizer claims -/

theorem subStrS_empty (hay : String) : subStrS "" hay = true := by
  unfold subStrS subChars
  cases hd : hay.data with
  | nil => simp
  | cons c t => simp [List.isPrefixOf]

theorem mem_dedupFirstAux (x : String) :
    ∀ (l seen : List String), x ∈ dedupFirstAux seen l ↔ (x ∈ l ∧ ¬ x ∈ seen) := by
  intro l
  induction l with
  | nil => intro seen; simp [dedupFirstAux]
  | cons a t ih =>
    intro seen
    simp only [dedupFirstAux]
    by_cases ha : a ∈ seen
    · rw [if_pos ha, ih]
      constructor
      · rintro ⟨h1, h2⟩
        exact ⟨List.mem_cons_of_mem _ h1, h2⟩
      · rintro ⟨h1, h2⟩
        rcases List.mem_cons.mp h1 with h3 | h3
        · exact absurd (h3 ▸ ha) h2
        · exact ⟨h3, h2⟩
    · rw [if_neg ha]
      constructor
      · intro h
        rcases List.mem_cons.mp h with h3 | h3
        · exact ⟨List.mem_cons.mpr (Or.inl h3), h3 ▸ ha⟩
        · obtain ⟨h4, h5⟩ := (ih (a :: seen)).mp h3
          exact ⟨List.mem_cons.mpr (Or.inr h4),
            fun hx => h5 (List.mem_cons.mpr (Or.inr hx))⟩
      · rintro ⟨h1, h2⟩
        rcases List.mem_cons.mp h1 with h3 | h3
        · exact List.mem_cons.mpr (Or.inl h3)
        · by_cases hxa : x = a
          · exact List.mem_cons.mpr (Or.inl hxa)
          · refine List.mem_cons.mpr (Or.inr ((ih (a :: seen)).mpr ⟨h3, ?_⟩))
            intro hx
            rcases List.mem_cons.mp hx with h6 | h6
            · exact hxa h6
            · exact h2 h6

theorem mem_dedupFirst (x : String) (l : List String) :
    x ∈ dedupFirst l ↔ x ∈ l := by
  unfold dedupFirst
  rw [mem_dedupFirstAux]
  simp

@[simp] theorem remapEdge_confidence (idMap : List (String × String)) (e : Edge) :
    (remapEdge idMap e).confidence = e.confidence := by
  unfold remapEdge; simp

@[simp] theorem remapEdge_explanation (idMap : List (String × String)) (e : Edge) :
    (remapEdge idMap e).explanation = e.explanation := by
  unfold remapEdge; simp

@[simp] theorem remapEdge_evidence (idMap : List (String × String)) (e : Edge) :
    (remapEdge idMap e).evidence = e.evidence := by
  unfold remapEdge; simp

@[simp] theorem remapEdge_relation (idMap : List (String × String)) (e : Edge) :
    (remapEdge idMap e).relation = e.relation := by
  unfold remapEdge; simp

/-- On a two-edge duplicate group, `merge_synonyms` produces exactly the
`dupMerge` of the two remapped edges. -/
theorem merge_two_dup (nodes : List Node) (e1 e2 : Edge)
    (hk : (((remapEdge (nodePhase nodes).1 e1).source,
            (remapEdge (nodePhase nodes).1 e1).target),
           (remapEdge (nodePhase nodes).1 e1).relation) =
          (((remapEdge (nodePhase nodes).1 e2).source,
            (remapEdge (nodePhase nodes).1 e2).target),
           (remapEdge (nodePhase nodes).1 e2).relation)) :
    (merge_synonyms nodes [e1, e2]).2.1 =
      [dupMerge (remapEdge (nodePhase nodes).1 e1)
                (remapEdge (nodePhase nodes).1 e2)] := by
  have h1 : edgeStep (nodePhase nodes).1 ([], 0) e1 =
      ([((((remapEdge (nodePhase nodes).1 e1).source,
           (remapEdge (nodePhase nodes).1 e1).target),
          (remapEdge (nodePhase nodes).1 e1).relation),
         remapEdge (nodePhase nodes).1 e1)], 0) := by
    simp only [edgeStep, aget]
    simp
  have h2 : edgeStep (nodePhase nodes).1
      ([((((remapEdge (nodePhase nodes).1 e1).source,
           (remapEdge (nodePhase nodes).1 e1).target),
          (remapEdge (nodePhase nodes).1 e1).relation),
         remapEdge (nodePhase nodes).1 e1)], 0) e2 =
      ([((((remapEdge (nodePhase nodes).1 e1).source,
           (remapEdge (nodePhase nodes).1 e1).target),
          (remapEdge (nodePhase nodes).1 e1).relation),
         dupMerge (remapEdge (nodePhase nodes).1 e1)
                  (remapEdge (nodePhase nodes).1 e2))], 1) := by
    simp only [edgeStep, aget]
    rw [← hk]
    simp [aset]
  have h3 : conflictPhase
      [((((remapEdge (nodePhase nodes).1 e1).source,
          (remapEdge (nodePhase nodes).1 e1).target),
         (remapEdge (nodePhase nodes).1 e1).relation),
        dupMerge (remapEdge (nodePhase nodes).1 e1)
                 (remapEdge (nodePhase nodes).1 e2))] =
      ([((((remapEdge (nodePhase nodes).1 e1).source,
           (remapEdge (nodePhase nodes).1 e1).target),
          (remapEdge (nodePhase nodes).1 e1).relation),
         dupMerge (remapEdge (nodePhase nodes).1 e1)
                  (remapEdge (nodePhase nodes).1 e2))], 0) := by
    simp [conflictPhase, byPair, byPairStep, aget]
  unfold merge_synonyms edgePhase
  simp only [List.foldl_cons, List.foldl_nil, h1, h2, h3]
  simp

/-- Behaviour of the duplicate-resolution step (merge.py lines 71–84):
the first edge survives unless the later one has strictly higher
confidence; the loser's snippet is appended exactly when it is not
already a substring of the survivor's; the survivor carries
"duplicate". -/
theorem dupMerge_spec (cur e : Edge) :
    "duplicate" ∈ (dupMerge cur e).flags ∧
    (e.confidence ≤ cur.confidence →
      (dupMerge cur e).confidence = cur.confidence ∧
      (dupMerge cur e).explanation = cur.explanation ∧
      (dupMerge cur e).source = cur.source ∧
      (dupMerge cur e).target = cur.target ∧
      (dupMerge cur e).evidence.snippet =
        (if subStrS e.evidence.snippet cur.evidence.snippet = true
         then cur.evidence.snippet
         else pyStrip cur.evidence.snippet ++ "\n" ++ pyStrip e.evidence.snippet)) ∧
    (cur.confidence < e.confidence →
      (dupMerge cur e).confidence = e.confidence ∧
      (dupMerge cur e).explanation = e.explanation ∧
      (dupMerge cur e).source = e.source ∧
      (dupMerge cur e).target = e.target ∧
      (dupMerge cur e).evidence.snippet =
        (if subStrS cur.evidence.snippet e.evidence.snippet = true
         then e.evidence.snippet
         else pyStrip e.evidence.snippet ++ "\n" ++ pyStrip cur.evidence.snippet)) := by
  by_cases hc : e.confidence ≤ cur.confidence
  · by_cases hcond : ¬ e.evidence.snippet = "" ∧
        ¬ subStrS e.evidence.snippet cur.evidence.snippet = true
    · have hm : dupMerge cur e = { cur with
          evidence := { cur.evidence with
            snippet := pyStrip cur.evidence.snippet ++ "\n" ++ pyStrip e.evidence.snippet },
          flags := dedupFirst (cur.flags ++ ["duplicate"]) } := by
        unfold dupMerge
        rw [if_pos hc, if_pos hcond]
      rw [hm]
      refine ⟨by simp [mem_dedupFirst], fun _ => ⟨rfl, rfl, rfl, rfl, ?_⟩,
        fun hlt => absurd hc (not_le.mpr hlt)⟩
      rw [if_neg (by simpa using hcond.2)]
    · have hs : subStrS e.evidence.snippet cur.evidence.snippet = true := by
        rcases not_and_or.mp hcond with h | h
        · rw [not_not.mp h]
          exact subStrS_empty _
        · exact not_not.mp h
      have hm : dupMerge cur e =
          { cur with flags := dedupFirst (cur.flags ++ ["duplicate"]) } := by
        unfold dupMerge
        rw [if_pos hc, if_neg hcond]
      rw [hm]
      refine ⟨by simp [mem_dedupFirst], fun _ => ⟨rfl, rfl, rfl, rfl, ?_⟩,
        fun hlt => absurd hc (not_le.mpr hlt)⟩
      rw [if_pos hs]
  · by_cases hcond : ¬ cur.evidence.snippet = "" ∧
        ¬ subStrS cur.evidence.snippet e.evidence.snippet = true
    · have hm : dupMerge cur e = { e with
          evidence := { e.evidence with
            snippet := pyStrip e.evidence.snippet ++ "\n" ++ pyStrip cur.evidence.snippet },
          flags := dedupFirst (e.flags ++ ["duplicate"]) } := by
        unfold dupMerge
        rw [if_neg hc, if_pos hcond]
      rw [hm]
      refine ⟨by simp [mem_dedupFirst], fun hle => absurd hle hc,
        fun _ => ⟨rfl, rfl, rfl, rfl, ?_⟩⟩
      rw [if_neg (by simpa using hcond.2)]
    · have hs : subStrS cur.evidence.snippet e.evidence.snippet = true := by
        rcases not_and_or.mp hcond with h | h
        · rw [not_not.mp h]
          exact subStrS_empty _
        · exact not_not.mp h
      have hm : dupMerge cur e =
          { e with flags := dedupFirst (e.flags ++ ["duplicate"]) } := by
        unfold dupMerge
        rw [if_neg hc, if_neg hcond]
      rw [hm]
      refine ⟨by simp [mem_dedupFirst], fun hle => absurd hle hc,
        fun _ => ⟨rfl, rfl, rfl, rfl, ?_⟩⟩
      rw [if_pos hs]

theorem filter_cons_pos {α : Type} (p : α → Bool) (a : α) (l : List α)
    (h : p a = true) : (a :: l).filter p = a :: l.filter p := by
  simp [List.filter_cons, h]

theorem filter_cons_neg {α : Type} (p : α → Bool) (a : α) (l : List α)
    (h : p a = false) : (a :: l).filter p = l.filter p := by
  simp [List.filter_cons, h]

/-- The edge-dedup fold of merge.py lines 57–84, characterized per key
over an arbitrary edge list and starting table: the table entry for `k`
after folding is the left `dupMerge`-fold of the remapped edges whose key
is `k`, seeded with the table's previous entry when present, else with
the group's first edge. -/
theorem edgePhase_aget_aux (idMap : List (String × String)) (k : EKey)
    (l : List Edge) :
    ∀ (T : List (EKey × Edge)) (n : Nat),
    aget ((l.foldl (edgeStep idMap) (T, n)).1) k =
      (match aget T k with
       | some cur => some (((l.map (remapEdge idMap)).filter
           (fun e1 => decide ((((e1.source, e1.target), e1.relation) : EKey) = k))).foldl
             dupMerge cur)
       | Option.none =>
         (match (l.map (remapEdge idMap)).filter
             (fun e1 => decide ((((e1.source, e1.target), e1.relation) : EKey) = k)) with
          | [] => Option.none
          | g :: gs => some (gs.foldl dupMerge g))) := by
  induction l with
  | nil =>
    intro T n
    cases hT : aget T k <;> simp [hT]
  | cons e t ih =>
    intro T n
    rw [List.foldl_cons]
    by_cases hke : ((((remapEdge idMap e).source, (remapEdge idMap e).target),
        (remapEdge idMap e).relation) : EKey) = k
    · cases hT : aget T k with
      | none =>
        have hstep : edgeStep idMap (T, n) e =
            (T ++ [(k, remapEdge idMap e)], n) := by
          unfold edgeStep
          dsimp only
          rw [hke, hT]
        rw [hstep, ih _ n]
        have hT' : aget (T ++ [(k, remapEdge idMap e)]) k =
            some (remapEdge idMap e) := by
          rw [aget_append, hT]
          simp [aget]
        rw [hT']
        dsimp only
        rw [List.map_cons,
            filter_cons_pos
              (fun e1 : Edge => decide ((((e1.source, e1.target), e1.relation) : EKey) = k))
              (remapEdge idMap e) (t.map (remapEdge idMap)) (by exact decide_eq_true hke)]
      | some cur =>
        have hstep : edgeStep idMap (T, n) e =
            (aset T k (dupMerge cur (remapEdge idMap e)), n + 1) := by
          unfold edgeStep
          dsimp only
          rw [hke, hT]
        rw [hstep, ih _ (n + 1), aget_aset_self]
        dsimp only
        rw [List.map_cons,
            filter_cons_pos
              (fun e1 : Edge => decide ((((e1.source, e1.target), e1.relation) : EKey) = k))
              (remapEdge idMap e) (t.map (remapEdge idMap)) (by exact decide_eq_true hke),
            List.foldl_cons]
    · cases hTe : aget T ((((remapEdge idMap e).source, (remapEdge idMap e).target),
          (remapEdge idMap e).relation) : EKey) with
      | none =>
        have hstep : edgeStep idMap (T, n) e =
            (T ++ [(((((remapEdge idMap e).source, (remapEdge idMap e).target),
              (remapEdge idMap e).relation) : EKey), remapEdge idMap e)], n) := by
          unfold edgeStep
          dsimp only
          rw [hTe]
        have hT' : aget (T ++ [(((((remapEdge idMap e).source,
            (remapEdge idMap e).target), (remapEdge idMap e).relation) : EKey),
            remapEdge idMap e)]) k = aget T k := by
          rw [aget_append]
          cases hTk : aget T k with
          | none =>
            dsimp only
            dsimp only [aget]
            rw [if_neg hke]
          | some v => rfl
        rw [hstep, ih _ n, hT']
        rw [List.map_cons,
            filter_cons_neg
              (fun e1 : Edge => decide ((((e1.source, e1.target), e1.relation) : EKey) = k))
              (remapEdge idMap e) (t.map (remapEdge idMap)) (by exact decide_eq_false hke)]
      | some cur =>
        have hstep : edgeStep idMap (T, n) e =
            (aset T ((((remapEdge idMap e).source, (remapEdge idMap e).target),
              (remapEdge idMap e).relation) : EKey)
              (dupMerge cur (remapEdge idMap e)), n + 1) := by
          unfold edgeStep
          dsimp only
          rw [hTe]
        rw [hstep, ih _ (n + 1), aget_aset_ne _ _ _ _ hke]
        rw [List.map_cons,
            filter_cons_neg
              (fun e1 : Edge => decide ((((e1.source, e1.target), e1.relation) : EKey) = k))
              (remapEdge idMap e) (t.map (remapEdge idMap)) (by exact decide_eq_false hke)]

/-- Claim C3 (confirmed): in the edge deduplication of `merge_synonyms`,
for every input edge list and every `(source, target, relation)` key, the
surviving edge for that key is the left `dupMerge`-fold of the remapped
edges of that key's group in input order, seeded with the group's first
edge — so the first edge of every group is kept and each later same-key
edge is resolved against the current survivor — and each resolution keeps
the current survivor unless the later edge has strictly higher confidence
(in which case the later edge replaces it), appends the loser's snippet
to the survivor's exactly when it is not already a substring, and flags
the survivor "duplicate". -/
theorem claim_C3_confirmed (nodes : List Node) (edges : List Edge) (k : EKey)
    (cur e : Edge) :
    aget (edgePhase (nodePhase nodes).1 edges).1 k =
      (match (edges.map (remapEdge (nodePhase nodes).1)).filter
          (fun e1 => decide ((((e1.source, e1.target), e1.relation) : EKey) = k)) with
       | [] => Option.none
       | g :: gs => some (gs.foldl dupMerge g)) ∧
    "duplicate" ∈ (dupMerge cur e).flags ∧
    (e.confidence ≤ cur.confidence →
      (dupMerge cur e).confidence = cur.confidence ∧
      (dupMerge cur e).explanation = cur.explanation ∧
      (dupMerge cur e).source = cur.source ∧
      (dupMerge cur e).target = cur.target ∧
      (dupMerge cur e).evidence.snippet =
        (if subStrS e.evidence.snippet cur.evidence.snippet = true
         then cur.evidence.snippet
         else pyStrip cur.evidence.snippet ++ "\n" ++ pyStrip e.evidence.snippet)) ∧
    (cur.confidence < e.confidence →
      (dupMerge cur e).confidence = e.confidence ∧
      (dupMerge cur e).explanation = e.explanation ∧
      (dupMerge cur e).source = e.source ∧
      (dupMerge cur e).target = e.target ∧
      (dupMerge cur e).evidence.snippet =
        (if subStrS cur.evidence.snippet e.evidence.snippet = true
         then e.evidence.snippet
         else pyStrip e.evidence.snippet ++ "\n" ++ pyStrip cur.evidence.snippet)) := by
  obtain ⟨hd, hkeep, hrepl⟩ := dupMerge_spec cur e
  refine ⟨?_, hd, hkeep, hrepl⟩
  unfold edgePhase
  exact edgePhase_aget_aux (nodePhase nodes).1 k edges [] 0

/-- Witness for `claim_C3_confirmed`: a three-edge group for the key
`(n1, n2, is_a)` mixed with one other-key edge; the survivor is the
two-step `dupMerge` fold, the second edge (strictly higher confidence)
replaces the first, and the survivor is flagged "duplicate". -/
theorem claim_C3_witness :
    aget (edgePhase (nodePhase [exNA, exNB]).1 [exD1, exD2, exE5w, exC4A]).1
        ((("n1", "n2"), "is_a")) =
      some (dupMerge (dupMerge (remapEdge (nodePhase [exNA, exNB]).1 exD1)
                               (remapEdge (nodePhase [exNA, exNB]).1 exD2))
                     (remapEdge (nodePhase [exNA, exNB]).1 exC4A)) ∧
    "duplicate" ∈ (dupMerge (remapEdge (nodePhase [exNA, exNB]).1 exD1)
                            (remapEdge (nodePhase [exNA, exNB]).1 exD2)).flags ∧
    (dupMerge (remapEdge (nodePhase [exNA, exNB]).1 exD1)
              (remapEdge (nodePhase [exNA, exNB]).1 exD2)).confidence =
      exD2.confidence := by
  obtain ⟨ha, hd, hkeep, hrepl⟩ :=
    claim_C3_confirmed [exNA, exNB] [exD1, exD2, exE5w, exC4A]
      ((("n1", "n2"), "is_a"))
      (remapEdge (nodePhase [exNA, exNB]).1 exD1)
      (remapEdge (nodePhase [exNA, exNB]).1 exD2)
  refine ⟨?_, hd, ?_⟩
  · rw [ha]
    rfl
  · obtain ⟨hcf, _⟩ := hrepl (by decide)
    rw [hcf]
    decide

/-! ## Lemmas for the conflict-marking loop -/

theorem aget_eq_none_iff {κ α : Type} [DecidableEq κ] (l : List (κ × α)) (k : κ) :
    aget l k = Option.none ↔ ¬ k ∈ l.map Prod.fst := by
  induction l with
  | nil => simp [aget]
  | cons p t ih =>
    unfold aget
    by_cases h : p.1 = k
    · rw [if_pos h]
      simp [h]
    · rw [if_neg h, ih]
      simp only [List.map_cons, List.mem_cons]
      constructor
      · intro hh hor
        rcases hor with he | hm
        · exact h he.symm
        · exact hh hm
      · intro hh hm
        exact hh (Or.inr hm)

theorem map_fst_aset {κ α : Type} [DecidableEq κ] (l : List (κ × α)) (k : κ) (v w : α)
    (h : aget l k = some v) : (aset l k w).map Prod.fst = l.map Prod.fst := by
  induction l with
  | nil => simp [aget] at h
  | cons p t ih =>
    by_cases h2 : p.1 = k
    · simp [aset, h2]
    · unfold aget at h
      rw [if_neg h2] at h
      simp [aset, h2, ih h]

theorem conflictStep_aget_ne (st : List (EKey × Edge) × Nat) (k' k : EKey)
    (h : ¬ k' = k) : aget (conflictStep st k').1 k = aget st.1 k := by
  unfold conflictStep
  cases hg : aget st.1 k' with
  | none => rfl
  | some e => simp [aget_aset_ne _ _ _ _ h]

theorem foldRels_aget_preserve (p : String × String) (rels : List String)
    (st : List (EKey × Edge) × Nat) (k : EKey)
    (h : ∀ rel ∈ rels, ¬ (p, rel) = k) :
    aget ((rels.foldl (fun st2 rel => conflictStep st2 (p, rel)) st).1) k =
      aget st.1 k := by
  induction rels generalizing st with
  | nil => rfl
  | cons r t ih =>
    simp only [List.foldl_cons]
    rw [ih _ (fun rel hm => h rel (List.mem_cons_of_mem _ hm))]
    exact conflictStep_aget_ne st (p, r) k (h r (List.mem_cons_self _ _))

theorem foldRels_aget_hit (p : String × String) (rel0 : String) (rels : List String)
    (st : List (EKey × Edge) × Nat) (e : Edge)
    (hnd : rels.Nodup) (hm : rel0 ∈ rels)
    (hget : aget st.1 (p, rel0) = some e) :
    aget ((rels.foldl (fun st2 rel => conflictStep st2 (p, rel)) st).1) (p, rel0) =
      some (bumpConflict e) := by
  induction rels generalizing st with
  | nil => cases hm
  | cons r t ih =>
    simp only [List.foldl_cons]
    by_cases hr : r = rel0
    · subst hr
      have hstep : aget (conflictStep st (p, r)).1 (p, r) = some (bumpConflict e) := by
        unfold conflictStep
        rw [hget]
        simp [aget_aset_self]
      rw [foldRels_aget_preserve p t _ _ ?hne]
      · exact hstep
      case hne =>
        intro rel hmem heq
        have : rel = r := congrArg Prod.snd heq
        exact (List.nodup_cons.mp hnd).1 (this ▸ hmem)
    · have hm' : rel0 ∈ t := by
        rcases List.mem_cons.mp hm with h | h
        · exact absurd h.symm hr
        · exact h
      have hget' : aget (conflictStep st (p, r)).1 (p, rel0) = some e := by
        rw [conflictStep_aget_ne _ _ _ (by simp [hr])]
        exact hget
      exact ih _ (List.nodup_cons.mp hnd).2 hm' hget'

theorem foldPairs_aget_preserve (bps : List ((String × String) × List String))
    (st : List (EKey × Edge) × Nat) (k : EKey)
    (h : ∀ pr ∈ bps, ¬ pr.1 = k.1) :
    aget ((bps.foldl
      (fun st2 pr =>
        if pr.2.length ≤ 1 then st2
        else pr.2.foldl (fun st3 rel => conflictStep st3 (pr.1, rel)) st2) st).1) k =
      aget st.1 k := by
  induction bps generalizing st with
  | nil => rfl
  | cons pr t ih =>
    simp only [List.foldl_cons]
    rw [ih _ (fun q hq => h q (List.mem_cons_of_mem _ hq))]
    by_cases hl : pr.2.length ≤ 1
    · rw [if_pos hl]
    · rw [if_neg hl]
      exact foldRels_aget_preserve pr.1 pr.2 st k
        (fun rel _ heq => h pr (List.mem_cons_self _ _) (congrArg Prod.fst heq))

theorem conflictFold_aget (bps : List ((String × String) × List String))
    (st : List (EKey × Edge) × Nat) (k : EKey) (e : Edge) (rs : List String)
    (hst : aget st.1 k = some e)
    (hkeys : (bps.map Prod.fst).Nodup)
    (hrs : aget bps k.1 = some rs)
    (hnd : rs.Nodup) (hmem : k.2 ∈ rs) (hlen : 2 ≤ rs.length) :
    aget ((bps.foldl
      (fun st2 pr =>
        if pr.2.length ≤ 1 then st2
        else pr.2.foldl (fun st3 rel => conflictStep st3 (pr.1, rel)) st2) st).1) k =
      some (bumpConflict e) := by
  induction bps generalizing st with
  | nil => simp [aget] at hrs
  | cons pr t ih =>
    simp only [List.foldl_cons]
    by_cases hp : pr.1 = k.1
    · have h1 : pr.2 = rs := by
        unfold aget at hrs
        rw [if_pos hp] at hrs
        exact Option.some.inj hrs
      have hlen' : ¬ pr.2.length ≤ 1 := by
        rw [h1]
        omega
      have hk : (pr.1, k.2) = k := by rw [hp]
      have hinner : aget ((pr.2.foldl
          (fun st3 rel => conflictStep st3 (pr.1, rel)) st).1) k =
          some (bumpConflict e) := by
        rw [← hk]
        apply foldRels_aget_hit pr.1 k.2 pr.2 st e (by rw [h1]; exact hnd)
          (by rw [h1]; exact hmem)
        rw [hk]
        exact hst
      have hkt : ∀ q ∈ t, ¬ q.1 = k.1 := by
        have hpr : ¬ pr.1 ∈ t.map Prod.fst :=
          (List.nodup_cons.mp (by simpa using hkeys)).1
        intro q hq hqk
        apply hpr
        rw [hp, ← hqk]
        exact List.mem_map_of_mem Prod.fst hq
      rw [if_neg hlen']
      rw [foldPairs_aget_preserve t _ k hkt]
      exact hinner
    · have hrs' : aget t k.1 = some rs := by
        unfold aget at hrs
        rw [if_neg hp] at hrs
        exact hrs
      have hpres : aget ((if pr.2.length ≤ 1 then st
          else pr.2.foldl (fun st3 rel => conflictStep st3 (pr.1, rel)) st)).1 k =
          some e := by
        by_cases hl : pr.2.length ≤ 1
        · rw [if_pos hl]; exact hst
        · rw [if_neg hl]
          rw [foldRels_aget_preserve pr.1 pr.2 st k
            (fun rel _ heq => hp (congrArg Prod.fst heq))]
          exact hst
      exact ih _ hpres (List.nodup_cons.mp (by simpa using hkeys)).2 hrs'

theorem byPairStep_self (bp : List ((String × String) × List String)) (k : EKey) :
    ∃ rs, aget (byPairStep bp k) k.1 = some rs ∧ k.2 ∈ rs := by
  unfold byPairStep
  cases hg : aget bp k.1 with
  | none =>
    refine ⟨[k.2], ?_, by simp⟩
    rw [aget_append, hg]
    simp [aget]
  | some rs =>
    dsimp only
    by_cases hm : k.2 ∈ rs
    · rw [if_pos hm]
      exact ⟨rs, hg, hm⟩
    · rw [if_neg hm]
      exact ⟨rs ++ [k.2], aget_aset_self _ _ _, by simp⟩

theorem byPairStep_mono (bp : List ((String × String) × List String)) (k k' : EKey)
    (h : ∃ rs, aget bp k'.1 = some rs ∧ k'.2 ∈ rs) :
    ∃ rs2, aget (byPairStep bp k) k'.1 = some rs2 ∧ k'.2 ∈ rs2 := by
  obtain ⟨rs, hg', hm'⟩ := h
  unfold byPairStep
  cases hg : aget bp k.1 with
  | none =>
    refine ⟨rs, ?_, hm'⟩
    rw [aget_append, hg']
  | some rs0 =>
    dsimp only
    by_cases hm : k.2 ∈ rs0
    · rw [if_pos hm]
      exact ⟨rs, hg', hm'⟩
    · rw [if_neg hm]
      by_cases hk : k.1 = k'.1
      · refine ⟨rs0 ++ [k.2], ?_, ?_⟩
        · rw [← hk]
          exact aget_aset_self _ _ _
        · rw [← hk] at hg'
          rw [hg] at hg'
          exact List.mem_append_left _ (Option.some.inj hg' ▸ hm')
      · exact ⟨rs, by rw [aget_aset_ne _ _ _ _ hk]; exact hg', hm'⟩

theorem byPair_mem_aux (k : EKey) :
    ∀ (ks : List EKey) (bp : List ((String × String) × List String)),
      (k ∈ ks ∨ ∃ rs, aget bp k.1 = some rs ∧ k.2 ∈ rs) →
      ∃ rs, aget (ks.foldl byPairStep bp) k.1 = some rs ∧ k.2 ∈ rs := by
  intro ks
  induction ks with
  | nil =>
    intro bp h
    rcases h with h | h
    · cases h
    · exact h
  | cons k0 t ih =>
    intro bp h
    simp only [List.foldl_cons]
    rcases h with h | h
    · rcases List.mem_cons.mp h with he | ht
      · exact ih _ (Or.inr (he ▸ byPairStep_self bp k0))
      · exact ih _ (Or.inl ht)
    · exact ih _ (Or.inr (byPairStep_mono bp k0 k h))

theorem byPair_inv_aux :
    ∀ (ks : List EKey) (bp : List ((String × String) × List String)),
      ((bp.map Prod.fst).Nodup ∧ ∀ pr ∈ bp, pr.2.Nodup) →
      (((ks.foldl byPairStep bp).map Prod.fst).Nodup ∧
        ∀ pr ∈ ks.foldl byPairStep bp, pr.2.Nodup) := by
  intro ks
  induction ks with
  | nil => intro bp h; exact h
  | cons k t ih =>
    intro bp h
    simp only [List.foldl_cons]
    apply ih
    obtain ⟨hnd, hb⟩ := h
    unfold byPairStep
    cases hg : aget bp k.1 with
    | none =>
      constructor
      · rw [List.map_append]
        refine List.Nodup.append hnd (by simp) ?_
        intro a ha hb2
        simp at hb2
        rw [hb2] at ha
        exact (aget_eq_none_iff bp k.1).mp hg ha
      · intro pr hpr
        rcases List.mem_append.mp hpr with h1 | h1
        · exact hb pr h1
        · simp at h1
          rw [h1]
          simp
    | some rs =>
      dsimp only
      by_cases hm : k.2 ∈ rs
      · rw [if_pos hm]
        exact ⟨hnd, hb⟩
      · rw [if_neg hm]
        constructor
        · rw [map_fst_aset bp k.1 rs _ hg]
          exact hnd
        · intro pr hpr
          rcases mem_aset bp k.1 (rs ++ [k.2]) pr hpr with h1 | h1
          · exact hb pr h1
          · rw [h1]
            have hrsnd : rs.Nodup := hb _ (aget_mem bp k.1 rs hg)
            simp [List.nodup_append, hrsnd, hm]

theorem byPair_inv (ks : List EKey) :
    ((byPair ks).map Prod.fst).Nodup ∧ ∀ pr ∈ byPair ks, pr.2.Nodup :=
  byPair_inv_aux ks [] ⟨by simp, by simp⟩

theorem byPair_mem (ks : List EKey) (k : EKey) (h : k ∈ ks) :
    ∃ rs, aget (byPair ks) k.1 = some rs ∧ k.2 ∈ rs :=
  byPair_mem_aux k ks [] (Or.inl h)

/-- Claim C4, the part the code refutes: an edge whose input flag list
already contains "conflict" twice keeps both occurrences through conflict
marking — the flag then does not occur exactly once. -/
theorem claim_C4_counterexample :
    (merge_synonyms [exNA, exNB] [exC4A, exC4B]).2.1.map
        (fun e => (e.relation, e.flags, e.confidence)) =
      [("is_a", ["conflict", "conflict"], 2 / 5),
       ("explains", ["conflict"], 2 / 5)] ∧
    ¬ (["conflict", "conflict"].count "conflict" = 1) := by
  constructor
  · decide
  · decide

/-- Claim C4 (amended): in conflict marking, every edge of a multi-relation
`(source, target)` pair ends with "conflict" *present* in its flag list —
appended exactly once when previously absent, and left untouched (never
re-appended, but pre-existing duplicates not removed) when present — and
its confidence is multiplied by 0.8 and clamped to [0, 1]. -/
theorem claim_C4_corrected (oe : List (EKey × Edge)) (k : EKey) (e : Edge)
    (hget : aget oe k = some e)
    (hmulti : 2 ≤ ((aget (byPair (oe.map Prod.fst)) k.1).getD []).length) :
    aget (conflictPhase oe).1 k =
      some { e with
        flags := if "conflict" ∈ e.flags then e.flags else e.flags ++ ["conflict"],
        confidence := qmax 0 (qmin 1 (e.confidence * (4 / 5))) } ∧
    "conflict" ∈ (if "conflict" ∈ e.flags then e.flags else e.flags ++ ["conflict"]) ∧
    (if "conflict" ∈ e.flags then e.flags
     else e.flags ++ ["conflict"]).count "conflict" =
      (if "conflict" ∈ e.flags then e.flags.count "conflict"
       else e.flags.count "conflict" + 1) := by
  have hkmem : k ∈ oe.map Prod.fst :=
    List.mem_map_of_mem Prod.fst (aget_mem oe k e hget)
  obtain ⟨rs, hrs, hmem⟩ := byPair_mem (oe.map Prod.fst) k hkmem
  have hlen : 2 ≤ rs.length := by
    rw [hrs] at hmulti
    simpa using hmulti
  obtain ⟨hbk, hbb⟩ := byPair_inv (oe.map Prod.fst)
  have hrsnd : rs.Nodup := hbb _ (aget_mem _ _ _ hrs)
  refine ⟨?_, ?_, ?_⟩
  · unfold conflictPhase
    exact conflictFold_aget (byPair (oe.map Prod.fst)) (oe, 0) k e rs hget hbk hrs
      hrsnd hmem hlen
  · by_cases h : "conflict" ∈ e.flags <;> simp [h]
  · by_cases h : "conflict" ∈ e.flags <;> simp [h, List.count_append]

/-- Witness for `claim_C4_corrected` at the concrete table `exOE4`. -/
theorem claim_C4_witness :
    (aget exOE4 (("n1", "n2"), "is_a") = some exC4A ∧
     2 ≤ ((aget (byPair (exOE4.map Prod.fst)) ("n1", "n2")).getD []).length) ∧
    aget (conflictPhase exOE4).1 (("n1", "n2"), "is_a") =
      some { exC4A with
        flags := if "conflict" ∈ exC4A.flags then exC4A.flags
                 else exC4A.flags ++ ["conflict"],
        confidence := qmax 0 (qmin 1 (exC4A.confidence * (4 / 5))) } ∧
    "conflict" ∈ (if "conflict" ∈ exC4A.flags then exC4A.flags
                  else exC4A.flags ++ ["conflict"]) ∧
    (if "conflict" ∈ exC4A.flags then exC4A.flags
     else exC4A.flags ++ ["conflict"]).count "conflict" =
      (if "conflict" ∈ exC4A.flags then exC4A.flags.count "conflict"
       else exC4A.flags.count "conflict" + 1) :=
  ⟨⟨by decide, by decide⟩,
   (claim_C4_corrected exOE4 (("n1", "n2"), "is_a") exC4A (by decide) (by decide)).1,
   (claim_C4_corrected exOE4 (("n1", "n2"), "is_a") exC4A (by decide) (by decide)).2.1,
   (claim_C4_corrected exOE4 (("n1", "n2"), "is_a") exC4A (by decide) (by decide)).2.2⟩

/-! ## Lemmas for the endpoint invariant (C5) -/

@[simp] theorem remapEdge_source (idMap : List (String × String)) (e : Edge) :
    (remapEdge idMap e).source = (aget idMap e.source).getD e.source := by
  unfold remapEdge
  simp

@[simp] theorem remapEdge_target (idMap : List (String × String)) (e : Edge) :
    (remapEdge idMap e).target = (aget idMap e.target).getD e.target := by
  unfold remapEdge
  simp

theorem dupMerge_source_or (c d : Edge) :
    (dupMerge c d).source = c.source ∨ (dupMerge c d).source = d.source := by
  obtain ⟨_, hkeep, hrepl⟩ := dupMerge_spec c d
  rcases le_or_lt d.confidence c.confidence with h | h
  · exact Or.inl (hkeep h).2.2.1
  · exact Or.inr (hrepl h).2.2.1

theorem dupMerge_target_or (c d : Edge) :
    (dupMerge c d).target = c.target ∨ (dupMerge c d).target = d.target := by
  obtain ⟨_, hkeep, hrepl⟩ := dupMerge_spec c d
  rcases le_or_lt d.confidence c.confidence with h | h
  · exact Or.inl (hkeep h).2.2.2.1
  · exact Or.inr (hrepl h).2.2.2.1

theorem isSome_aget_aset {κ α : Type} [DecidableEq κ] (l : List (κ × α)) (k : κ)
    (v : α) (k' : κ) (h : (aget l k').isSome) : (aget (aset l k v) k').isSome := by
  by_cases hk : k = k'
  · rw [hk, aget_aset_self]
    rfl
  · rw [aget_aset_ne _ _ _ _ hk]
    exact h

/-- The id-remap table always points at a kept node's id. -/
def NPInv (st : List (String × String) × List (String × Node) × Nat) : Prop :=
  ∀ i j, aget st.1 i = some j → j ∈ st.2.1.map (fun p => p.2.id)

theorem nodeStep_NPInv (st : List (String × String) × List (String × Node) × Nat)
    (n : Node) (h : NPInv st) : NPInv (nodeStep st n) := by
  intro i j hij
  unfold nodeStep at hij ⊢
  cases hg : aget st.2.1 (mergeKey n.name n.domain) with
  | none =>
    simp only [hg] at hij ⊢
    by_cases hi : n.id = i
    · rw [hi, aget_aset_self] at hij
      simp at hij
      rw [← hij, ← hi]
      simp
    · rw [aget_aset_ne _ _ _ _ hi] at hij
      have := h i j hij
      simp only [List.map_append]
      exact List.mem_append_left _ this
  | some m =>
    simp only [hg] at hij ⊢
    by_cases hi : n.id = i
    · rw [hi, aget_aset_self] at hij
      have hm : (mergeKey n.name n.domain, m) ∈ st.2.1 := aget_mem _ _ _ hg
      simp at hij
      rw [← hij]
      exact List.mem_map.mpr ⟨_, hm, rfl⟩
    · rw [aget_aset_ne _ _ _ _ hi] at hij
      exact h i j hij

theorem nodeStep_isSome_mono
    (st : List (String × String) × List (String × Node) × Nat) (n : Node) (i : String)
    (h : (aget st.1 i).isSome) : (aget (nodeStep st n).1 i).isSome := by
  unfold nodeStep
  cases hg : aget st.2.1 (mergeKey n.name n.domain) with
  | none =>
    simp only [hg]
    exact isSome_aget_aset _ _ _ _ h
  | some m =>
    simp only [hg]
    exact isSome_aget_aset _ _ _ _ h

theorem nodeStep_self (st : List (String × String) × List (String × Node) × Nat)
    (n : Node) : (aget (nodeStep st n).1 n.id).isSome := by
  unfold nodeStep
  cases hg : aget st.2.1 (mergeKey n.name n.domain) with
  | none =>
    simp only [hg]
    rw [aget_aset_self]
    rfl
  | some m =>
    simp only [hg]
    rw [aget_aset_self]
    rfl

theorem nodeFold_NPInv (ns : List Node) :
    ∀ (st : List (String × String) × List (String × Node) × Nat),
      NPInv st → NPInv (ns.foldl nodeStep st) := by
  induction ns with
  | nil => intro st h; exact h
  | cons n t ih =>
    intro st h
    exact ih _ (nodeStep_NPInv st n h)

theorem nodeFold_isSome_mono (ns : List Node) :
    ∀ (st : List (String × String) × List (String × Node) × Nat) (i : String),
      (aget st.1 i).isSome → (aget (ns.foldl nodeStep st).1 i).isSome := by
  induction ns with
  | nil => intro st i h; exact h
  | cons n t ih =>
    intro st i h
    exact ih _ _ (nodeStep_isSome_mono st n i h)

theorem nodeFold_isSome (ns : List Node) :
    ∀ (st : List (String × String) × List (String × Node) × Nat) (n : Node),
      n ∈ ns → (aget (ns.foldl nodeStep st).1 n.id).isSome := by
  induction ns with
  | nil => intro st n h; cases h
  | cons n0 t ih =>
    intro st n h
    rcases List.mem_cons.mp h with he | ht
    · simp only [List.foldl_cons]
      exact nodeFold_isSome_mono t _ _ (he ▸ nodeStep_self st n0)
    · exact ih _ _ ht

/-- Remapping an id that belongs to an input node lands on a kept node's
id. -/
theorem nodePhase_remap (nodes : List Node) (x : String)
    (hx : x ∈ nodes.map Node.id) :
    ((aget (nodePhase nodes).1 x).getD x) ∈
      (nodePhase nodes).2.1.map (fun p => p.2.id) := by
  obtain ⟨n, hn, hnx⟩ := List.mem_map.mp hx
  have hs : (aget (nodePhase nodes).1 x).isSome := by
    rw [← hnx]
    exact nodeFold_isSome nodes _ n hn
  obtain ⟨j, hj⟩ := Option.isSome_iff_exists.mp hs
  rw [hj]
  exact nodeFold_NPInv nodes _ (fun i j h => by simp [aget] at h) x j hj

/-- All surviving-edge endpoints lie in `S`. -/
def EPInv (S : List String) (oe : List (EKey × Edge)) : Prop :=
  ∀ pr ∈ oe, pr.2.source ∈ S ∧ pr.2.target ∈ S

theorem edgeFold_EPInv (idMap : List (String × String)) (S : List String) :
    ∀ (edges : List Edge) (st : List (EKey × Edge) × Nat),
      (∀ e ∈ edges, ((aget idMap e.source).getD e.source) ∈ S ∧
        ((aget idMap e.target).getD e.target) ∈ S) →
      EPInv S st.1 → EPInv S (edges.foldl (edgeStep idMap) st).1 := by
  intro edges
  induction edges with
  | nil => intro st _ h; exact h
  | cons e t ih =>
    intro st hrm hst
    simp only [List.foldl_cons]
    apply ih _ (fun x hx => hrm x (List.mem_cons_of_mem _ hx))
    unfold edgeStep
    dsimp only
    have he1 : (remapEdge idMap e).source ∈ S ∧ (remapEdge idMap e).target ∈ S := by
      constructor
      · rw [remapEdge_source]
        exact (hrm e (List.mem_cons_self _ _)).1
      · rw [remapEdge_target]
        exact (hrm e (List.mem_cons_self _ _)).2
    cases hg : aget st.1 (((remapEdge idMap e).source, (remapEdge idMap e).target),
        (remapEdge idMap e).relation) with
    | none =>
      simp only [hg]
      intro pr hpr
      rcases List.mem_append.mp hpr with h1 | h1
      · exact hst pr h1
      · simp at h1
        rw [h1]
        exact he1
    | some cur =>
      simp only [hg]
      intro pr hpr
      rcases mem_aset _ _ _ pr hpr with h1 | h1
      · exact hst pr h1
      · rw [h1]
        have hcur : cur.source ∈ S ∧ cur.target ∈ S := hst _ (aget_mem _ _ _ hg)
        constructor
        · rcases dupMerge_source_or cur (remapEdge idMap e) with h | h
          · rw [h]; exact hcur.1
          · rw [h]; exact he1.1
        · rcases dupMerge_target_or cur (remapEdge idMap e) with h | h
          · rw [h]; exact hcur.2
          · rw [h]; exact he1.2

theorem conflictStep_EPInv (S : List String) (st : List (EKey × Edge) × Nat)
    (k : EKey) (h : EPInv S st.1) : EPInv S (conflictStep st k).1 := by
  unfold conflictStep
  cases hg : aget st.1 k with
  | none =>
    simp only [hg]
    exact h
  | some e =>
    simp only [hg]
    intro pr hpr
    rcases mem_aset _ _ _ pr hpr with h1 | h1
    · exact h pr h1
    · rw [h1]
      have he := h (k, e) (aget_mem _ _ _ hg)
      exact ⟨he.1, he.2⟩

theorem foldRels_EPInv (S : List String) (p : String × String) (rels : List String) :
    ∀ st : List (EKey × Edge) × Nat, EPInv S st.1 →
      EPInv S ((rels.foldl (fun st2 rel => conflictStep st2 (p, rel)) st).1) := by
  induction rels with
  | nil => intro st h; exact h
  | cons r t ih =>
    intro st h
    exact ih _ (conflictStep_EPInv S st (p, r) h)

theorem conflictPhase_EPInv (S : List String) (oe : List (EKey × Edge))
    (h : EPInv S oe) : EPInv S (conflictPhase oe).1 := by
  unfold conflictPhase
  generalize byPair (oe.map Prod.fst) = bps
  suffices haux : ∀ (bps2 : List ((String × String) × List String))
      (st : List (EKey × Edge) × Nat), EPInv S st.1 →
      EPInv S ((bps2.foldl
        (fun st2 pr =>
          if pr.2.length ≤ 1 then st2
          else pr.2.foldl (fun st3 rel => conflictStep st3 (pr.1, rel)) st2) st).1) by
    exact haux bps (oe, 0) h
  intro bps2
  induction bps2 with
  | nil => intro st h2; exact h2
  | cons pr t ih =>
    intro st h2
    simp only [List.foldl_cons]
    apply ih
    by_cases hl : pr.2.length ≤ 1
    · rw [if_pos hl]
      exact h2
    · rw [if_neg hl]
      exact foldRels_EPInv S pr.1 pr.2 st h2

/-- Claim C5, the part the code refutes: an input edge whose target id
matches no node survives normalization with its dangling endpoint. -/
theorem claim_C5_counterexample :
    (merge_synonyms [exNA] [exE5]).1.map Node.id = ["n1"] ∧
    (merge_synonyms [exNA] [exE5]).2.1.map (fun e => (e.source, e.target)) =
      [("n1", "ghost")] ∧
    ¬ "ghost" ∈ ["n1"] :=
  ⟨by decide, by decide, by decide⟩

/-- Claim C5 (amended): whenever every input edge endpoint refers to some
input node's id, every output edge of `merge_synonyms` refers, via its
source and target, to a node present in the output node list. -/
theorem claim_C5_corrected (nodes : List Node) (edges : List Edge)
    (h : ∀ e ∈ edges, e.source ∈ nodes.map Node.id ∧
      e.target ∈ nodes.map Node.id) :
    ∀ e2 ∈ (merge_synonyms nodes edges).2.1,
      e2.source ∈ (merge_synonyms nodes edges).1.map Node.id ∧
      e2.target ∈ (merge_synonyms nodes edges).1.map Node.id := by
  intro e2 he2
  have hout : (merge_synonyms nodes edges).1.map Node.id =
      (nodePhase nodes).2.1.map (fun p => p.2.id) := by
    unfold merge_synonyms
    rw [List.map_map]
    rfl
  rw [hout]
  have hrm : ∀ e ∈ edges,
      ((aget (nodePhase nodes).1 e.source).getD e.source) ∈
        (nodePhase nodes).2.1.map (fun p => p.2.id) ∧
      ((aget (nodePhase nodes).1 e.target).getD e.target) ∈
        (nodePhase nodes).2.1.map (fun p => p.2.id) := by
    intro e he
    exact ⟨nodePhase_remap nodes e.source (h e he).1,
           nodePhase_remap nodes e.target (h e he).2⟩
  have hep : EPInv ((nodePhase nodes).2.1.map (fun p => p.2.id))
      (edgePhase (nodePhase nodes).1 edges).1 := by
    unfold edgePhase
    exact edgeFold_EPInv (nodePhase nodes).1 _ edges ([], 0) hrm
      (fun pr hpr => absurd hpr (List.not_mem_nil pr))
  have hcp := conflictPhase_EPInv ((nodePhase nodes).2.1.map (fun p => p.2.id))
    (edgePhase (nodePhase nodes).1 edges).1 hep
  have he2' : e2 ∈ (conflictPhase (edgePhase (nodePhase nodes).1 edges).1).1.map
      Prod.snd := he2
  obtain ⟨pr, hpr, hpe⟩ := List.mem_map.mp he2'
  rw [← hpe]
  exact hcp pr hpr

/-- Witness for `claim_C5_corrected`: a well-referenced edge on the nodes
`exNA`, `exNB`. -/
theorem claim_C5_witness :
    (∀ e ∈ [exE5w], e.source ∈ [exNA, exNB].map Node.id ∧
      e.target ∈ [exNA, exNB].map Node.id) ∧
    (∀ e2 ∈ (merge_synonyms [exNA, exNB] [exE5w]).2.1,
      e2.source ∈ (merge_synonyms [exNA, exNB] [exE5w]).1.map Node.id ∧
      e2.target ∈ (merge_synonyms [exNA, exNB] [exE5w]).1.map Node.id) :=
  ⟨by decide, claim_C5_corrected [exNA, exNB] [exE5w] (by decide)⟩

/-- Witness for `claim_C10_confirmed` at the concrete graph `exG10`. -/
theorem claim_C10_witness :
    exG10.edges[0]? = some exE10 ∧
    ((run_check exG10 true).edges[0]?).map
        (fun x => (x.checked, x.confidence, x.check_reason)) =
      some (false, clamp01 (exE10.confidence * (45 / 100)),
        some "Empty evidence snippet.") :=
  ⟨rfl, claim_C10_confirmed exG10 true 0 exE10 rfl (by decide) (by decide) (by decide)⟩

/-! ## Lemmas for the schema repairer -/

theorem hasKey_aset_mono {κ α : Type} [DecidableEq κ] (l : List (κ × α)) (k : κ)
    (v : α) (k' : κ) (h : hasKey l k' = true) : hasKey (aset l k v) k' = true := by
  unfold hasKey at h ⊢
  exact isSome_aget_aset l k v k' h

theorem hasKey_asetdefault_mono {κ α : Type} [DecidableEq κ] (l : List (κ × α))
    (k : κ) (v : α) (k' : κ) (h : hasKey l k' = true) :
    hasKey (asetdefault l k v) k' = true := by
  unfold asetdefault
  cases hg : aget l k with
  | some w => exact h
  | none =>
    unfold hasKey at h ⊢
    cases hk : aget l k' with
    | none => rw [hk] at h; simp at h
    | some w => simp only [aget_append, hk]; rfl

theorem hasKey_aset_self_k {κ α : Type} [DecidableEq κ] (l : List (κ × α)) (k : κ)
    (v : α) : hasKey (aset l k v) k = true := by
  unfold hasKey
  rw [aget_aset_self]
  rfl

theorem sha1HexChars_length (msg : List Nat) : (sha1HexChars msg).length = 40 := by
  unfold sha1HexChars
  rcases hfold : (chunksOf64 (sha1Pad msg)).foldl sha1Chunk
      (1732584193, 4023233417, 2562383102, 271733878, 3285377520) with
    ⟨h0, h1, h2, h3, h4⟩
  simp [wordHex]

theorem sha12_ne_empty (s : String) : ¬ sha12 s = "" := by
  intro h
  have hlen : ((sha1HexChars (utf8Bytes s)).take 12).length = 0 := by
    have : ((sha1HexChars (utf8Bytes s)).take 12) = ("" : String).data :=
      congrArg String.data h
    rw [this]
    rfl
  rw [List.length_take, sha1HexChars_length] at hlen
  norm_num at hlen

theorem topDefaults_hasKey (g0 : PDict) :
    hasKey (topDefaults g0).1 "concept" = true ∧
    hasKey (topDefaults g0).1 "nodes" = true ∧
    hasKey (topDefaults g0).1 "edges" = true ∧
    hasKey (topDefaults g0).1 "meta" = true := by
  unfold topDefaults
  exact ⟨hasKey_asetdefault_mono _ _ _ _ (hasKey_asetdefault_mono _ _ _ _
           (hasKey_asetdefault_mono _ _ _ _ (hasKey_asetdefault_self _ _ _))),
         hasKey_asetdefault_mono _ _ _ _ (hasKey_asetdefault_mono _ _ _ _
           (hasKey_asetdefault_self _ _ _)),
         hasKey_asetdefault_mono _ _ _ _ (hasKey_asetdefault_self _ _ _),
         hasKey_asetdefault_self _ _ _⟩

theorem topDefaults_noop (d : PDict)
    (h1 : hasKey d "concept" = true) (h2 : hasKey d "nodes" = true)
    (h3 : hasKey d "edges" = true) (h4 : hasKey d "meta" = true) :
    topDefaults d = (d, 0) := by
  unfold topDefaults
  rw [asetdefault_of_hasKey _ _ _ h1, asetdefault_of_hasKey _ _ _ h2,
      asetdefault_of_hasKey _ _ _ h3, asetdefault_of_hasKey _ _ _ h4,
      h1, h2, h3, h4]
  simp

theorem metaChain_keys (m0 : PDict) :
    hasKey (asetdefault (asetdefault (asetdefault m0
        "generated_at" (PyVal.str ""))
        "version" (PyVal.str "v1"))
        "checker_summary" (PyVal.dict [])) "generated_at" = true ∧
    hasKey (asetdefault (asetdefault (asetdefault m0
        "generated_at" (PyVal.str ""))
        "version" (PyVal.str "v1"))
        "checker_summary" (PyVal.dict [])) "version" = true ∧
    hasKey (asetdefault (asetdefault (asetdefault m0
        "generated_at" (PyVal.str ""))
        "version" (PyVal.str "v1"))
        "checker_summary" (PyVal.dict [])) "checker_summary" = true :=
  ⟨hasKey_asetdefault_mono _ _ _ _ (hasKey_asetdefault_mono _ _ _ _
     (hasKey_asetdefault_self _ _ _)),
   hasKey_asetdefault_mono _ _ _ _ (hasKey_asetdefault_self _ _ _),
   hasKey_asetdefault_self _ _ _⟩

theorem metaStage_noop (d : PDict) (m : PDict)
    (hget : aget d "meta" = some (PyVal.dict m))
    (h1 : hasKey m "generated_at" = true) (h2 : hasKey m "version" = true)
    (h3 : hasKey m "checker_summary" = true) :
    metaStage d = some d := by
  unfold metaStage
  have hd : dgetD d "meta" = PyVal.dict m := by
    unfold dgetD
    rw [hget]
    rfl
  have hne : m.isEmpty = false := hasKey_ne_nil m _ h1
  have ho : orEmptyList (PyVal.dict m) = PyVal.dict m := by
    simp [orEmptyList, truthy, hne]
  rw [hd, ho]
  dsimp only
  unfold metaStage.metaSet
  rw [asetdefault_of_hasKey _ _ _ h1, asetdefault_of_hasKey _ _ _ h2,
      asetdefault_of_hasKey _ _ _ h3, aset_self_of_aget _ _ _ hget]

theorem metaStage_some (d : PDict) (g2 : PDict) (h : metaStage d = some g2) :
    ∃ m, g2 = aset d "meta" (PyVal.dict m) ∧ hasKey m "generated_at" = true ∧
      hasKey m "version" = true ∧ hasKey m "checker_summary" = true := by
  unfold metaStage at h
  cases hv : orEmptyList (dgetD d "meta") with
  | pynone => rw [hv] at h; cases h
  | pybool b => rw [hv] at h; cases h
  | num q => rw [hv] at h; cases h
  | str s => rw [hv] at h; cases h
  | list l =>
    rw [hv] at h
    dsimp only at h
    by_cases he : l.isEmpty
    · rw [if_pos he] at h
      unfold metaStage.metaSet at h
      obtain ⟨hk1, hk2, hk3⟩ := metaChain_keys []
      exact ⟨_, (Option.some.inj h).symm, hk1, hk2, hk3⟩
    · rw [if_neg he] at h
      cases h
  | dict m0 =>
    rw [hv] at h
    dsimp only at h
    unfold metaStage.metaSet at h
    obtain ⟨hk1, hk2, hk3⟩ := metaChain_keys m0
    exact ⟨_, (Option.some.inj h).symm, hk1, hk2, hk3⟩

theorem hasKey_of_aget {κ α : Type} [DecidableEq κ] (l : List (κ × α)) (k : κ) (v : α)
    (h : aget l k = some v) : hasKey l k = true := by
  unfold hasKey
  rw [h]
  rfl

theorem aget_asetdefault_hasKey {κ α : Type} [DecidableEq κ] (l : List (κ × α))
    (k' k : κ) (v : α) (h : hasKey l k = true) :
    aget (asetdefault l k' v) k = aget l k := by
  by_cases hk : k' = k
  · subst hk
    rw [asetdefault_of_hasKey _ _ _ h]
  · exact aget_asetdefault_ne _ _ _ _ hk

theorem pyIter_orEmpty_list (l : List PyVal) :
    pyIter (orEmptyList (PyVal.list l)) = some l := by
  cases l with
  | nil => rfl
  | cons x xs => rfl

theorem topDefaults_aget (g0 : PDict) (k : String) (hk : hasKey g0 k = true) :
    aget (topDefaults g0).1 k = aget g0 k := by
  unfold topDefaults
  dsimp only
  rw [aget_asetdefault_hasKey _ _ _ _ (hasKey_asetdefault_mono _ _ _ _
        (hasKey_asetdefault_mono _ _ _ _ (hasKey_asetdefault_mono _ _ _ _ hk))),
      aget_asetdefault_hasKey _ _ _ _ (hasKey_asetdefault_mono _ _ _ _
        (hasKey_asetdefault_mono _ _ _ _ hk)),
      aget_asetdefault_hasKey _ _ _ _ (hasKey_asetdefault_mono _ _ _ _ hk),
      aget_asetdefault_hasKey _ _ _ _ hk]

/-! ### Stage lemmas for the per-edge repair -/

theorem ensureK_hasKey_self (l : PDict) (k : String) (v : PyVal) :
    hasKey (ensureK l k v).1 k = true := by
  unfold ensureK
  by_cases h : hasKey l k = true
  · rw [if_pos h]; exact h
  · rw [if_neg h]; exact hasKey_aset_self _ _ _

theorem ensureK_hasKey_mono (l : PDict) (k : String) (v : PyVal) (k' : String)
    (h : hasKey l k' = true) : hasKey (ensureK l k v).1 k' = true := by
  unfold ensureK
  by_cases h2 : hasKey l k = true
  · rw [if_pos h2]; exact h
  · rw [if_neg h2]; exact hasKey_aset_mono _ _ _ _ h

theorem ensureK_of_hasKey (l : PDict) (k : String) (v : PyVal)
    (h : hasKey l k = true) : ensureK l k v = (l, 0) := by
  unfold ensureK
  rw [if_pos h]

theorem ensureK0_hasKey_self (l : PDict) (k : String) (v : PyVal) :
    hasKey (ensureK0 l k v) k = true := by
  unfold ensureK0
  by_cases h : hasKey l k = true
  · rw [if_pos h]; exact h
  · rw [if_neg h]; exact hasKey_aset_self _ _ _

theorem ensureK0_hasKey_mono (l : PDict) (k : String) (v : PyVal) (k' : String)
    (h : hasKey l k' = true) : hasKey (ensureK0 l k v) k' = true := by
  unfold ensureK0
  by_cases h2 : hasKey l k = true
  · rw [if_pos h2]; exact h
  · rw [if_neg h2]; exact hasKey_aset_mono _ _ _ _ h

theorem ensureK0_of_hasKey (l : PDict) (k : String) (v : PyVal)
    (h : hasKey l k = true) : ensureK0 l k v = l := by
  unfold ensureK0
  rw [if_pos h]

theorem ensureDomain_hasKey_self (nd : List (String × String)) (ee : PDict)
    (l : PDict) : hasKey (ensureDomain nd ee l).1 "domain" = true := by
  unfold ensureDomain
  by_cases h : hasKey l "domain" = true
  · rw [if_pos h]; exact h
  · rw [if_neg h]
    exact hasKey_aset_self _ _ _

theorem ensureDomain_hasKey_mono (nd : List (String × String)) (ee : PDict)
    (l : PDict) (k' : String) (h : hasKey l k' = true) :
    hasKey (ensureDomain nd ee l).1 k' = true := by
  unfold ensureDomain
  by_cases h2 : hasKey l "domain" = true
  · rw [if_pos h2]; exact h
  · rw [if_neg h2]
    exact hasKey_aset_mono _ _ _ _ h

theorem ensureDomain_of_hasKey (nd : List (String × String)) (ee : PDict)
    (l : PDict) (h : hasKey l "domain" = true) : ensureDomain nd ee l = (l, 0) := by
  unfold ensureDomain
  rw [if_pos h]

theorem fixFlags_flags (ed : PDict) :
    ∃ fl, aget (fixFlags ed).1 "flags" = some (PyVal.list fl) := by
  unfold fixFlags
  cases hg : aget ed "flags" with
  | none =>
    dsimp only
    exact ⟨[], by rw [aget_aset_self]⟩
  | some v =>
    cases v with
    | list l =>
      dsimp only
      exact ⟨l, hg⟩
    | pynone => exact ⟨[], by dsimp only; rw [aget_aset_self]⟩
    | pybool b => exact ⟨[], by dsimp only; rw [aget_aset_self]⟩
    | num q => exact ⟨[], by dsimp only; rw [aget_aset_self]⟩
    | str s => exact ⟨[], by dsimp only; rw [aget_aset_self]⟩
    | dict d => exact ⟨[], by dsimp only; rw [aget_aset_self]⟩

theorem fixFlags_noop (ed : PDict) (fl : List PyVal)
    (h : aget ed "flags" = some (PyVal.list fl)) : fixFlags ed = (ed, 0) := by
  unfold fixFlags
  rw [h]

theorem fixEv_fst (nd : List (String × String)) (ee : PDict) :
    ∃ ev, (fixEv nd ee).1 = aset ee "evidence" (PyVal.dict ev) ∧
      hasKey ev "title" = true ∧ hasKey ev "snippet" = true ∧
      hasKey ev "url" = true ∧ hasKey ev "domain" = true := by
  refine ⟨_, rfl, ?_, ?_, ?_, ?_⟩
  · exact ensureDomain_hasKey_mono _ _ _ _ (ensureK0_hasKey_mono _ _ _ _
      (ensureK_hasKey_mono _ _ _ _ (ensureK_hasKey_self _ _ _)))
  · exact ensureDomain_hasKey_mono _ _ _ _ (ensureK0_hasKey_mono _ _ _ _
      (ensureK_hasKey_self _ _ _))
  · exact ensureDomain_hasKey_mono _ _ _ _ (ensureK0_hasKey_self _ _ _)
  · exact ensureDomain_hasKey_self _ _ _

theorem fixEv_of_keys (nd : List (String × String)) (ee : PDict) (ev : PDict)
    (hev : aget ee "evidence" = some (PyVal.dict ev))
    (h1 : hasKey ev "title" = true) (h2 : hasKey ev "snippet" = true)
    (h3 : hasKey ev "url" = true) (h4 : hasKey ev "domain" = true) :
    fixEv nd ee = (aset ee "evidence" (PyVal.dict ev), 0) := by
  unfold fixEv
  rw [hev]
  dsimp only
  rw [ensureK_of_hasKey _ _ _ h1]
  dsimp only
  rw [ensureK_of_hasKey _ _ _ h2]
  dsimp only
  rw [ensureK0_of_hasKey _ _ _ h3]
  rw [ensureDomain_of_hasKey _ _ _ h4]
  rfl

theorem fixId_spec (ee : PDict) :
    (∀ k : String, ¬ "id" = k → aget (fixId ee).1 k = aget ee k) ∧
    (truthy (dgetD (fixId ee).1 "id") = true ∨
     (truthy (dgetD (fixId ee).1 "source") && truthy (dgetD (fixId ee).1 "target") &&
      truthy (dgetD (fixId ee).1 "relation")) = false) := by
  unfold fixId
  by_cases hc : (!truthy (dgetD ee "id") && truthy (dgetD ee "source") &&
      truthy (dgetD ee "target") && truthy (dgetD ee "relation")) = true
  · rw [if_pos hc]
    constructor
    · intro k hk
      exact aget_aset_ne _ _ _ _ hk
    · left
      unfold dgetD
      rw [aget_aset_self]
      simp only [Option.getD_some, truthy]
      exact decide_eq_true (sha12_ne_empty _)
  · rw [if_neg hc]
    constructor
    · intro k _
      rfl
    · cases ha : truthy (dgetD ee "id") with
      | true => exact Or.inl rfl
      | false =>
        right
        cases hb : truthy (dgetD ee "source") <;>
          cases hc2 : truthy (dgetD ee "target") <;>
            cases hd : truthy (dgetD ee "relation") <;> simp_all

theorem fixId_noop (ee : PDict)
    (h : truthy (dgetD ee "id") = true ∨
      (truthy (dgetD ee "source") && truthy (dgetD ee "target") &&
       truthy (dgetD ee "relation")) = false) :
    fixId ee = (ee, 0) := by
  unfold fixId
  have hcond : ¬ ((!truthy (dgetD ee "id") && truthy (dgetD ee "source") &&
      truthy (dgetD ee "target") && truthy (dgetD ee "relation")) = true) := by
    intro hc
    simp only [Bool.and_eq_true] at hc
    obtain ⟨⟨⟨ha, hb⟩, hc2⟩, hd⟩ := hc
    rcases h with h | h
    · rw [h] at ha
      cases ha
    · rw [hb, hc2, hd] at h
      simp at h
  rw [if_neg hcond]

theorem edgeFixedB_intro (ee : PDict) (fl : List PyVal) (ev : PDict)
    (hf : aget ee "flags" = some (PyVal.list fl))
    (hev : aget ee "evidence" = some (PyVal.dict ev))
    (h1 : hasKey ev "title" = true) (h2 : hasKey ev "snippet" = true)
    (h3 : hasKey ev "url" = true) (h4 : hasKey ev "domain" = true)
    (hid : truthy (dgetD ee "id") = true ∨
      (truthy (dgetD ee "source") && truthy (dgetD ee "target") &&
       truthy (dgetD ee "relation")) = false) :
    edgeFixedB ee = true := by
  unfold edgeFixedB
  rw [hf, hev]
  dsimp only
  rw [h1, h2, h3, h4]
  rcases hid with h | h
  · simp [h]
  · simp [h]

theorem edgeFixedB_elim (ee : PDict) (h : edgeFixedB ee = true) :
    (∃ fl, aget ee "flags" = some (PyVal.list fl)) ∧
    (∃ ev, aget ee "evidence" = some (PyVal.dict ev) ∧ hasKey ev "title" = true ∧
      hasKey ev "snippet" = true ∧ hasKey ev "url" = true ∧
      hasKey ev "domain" = true) ∧
    (truthy (dgetD ee "id") = true ∨
     (truthy (dgetD ee "source") && truthy (dgetD ee "target") &&
      truthy (dgetD ee "relation")) = false) := by
  unfold edgeFixedB at h
  simp only [Bool.and_eq_true] at h
  obtain ⟨⟨hA, hB⟩, hC⟩ := h
  refine ⟨?_, ?_, ?_⟩
  · cases hg : aget ee "flags" with
    | none => rw [hg] at hA; simp at hA
    | some v =>
      rw [hg] at hA
      cases v with
      | list l => exact ⟨l, rfl⟩
      | pynone => simp at hA
      | pybool b => simp at hA
      | num q => simp at hA
      | str s => simp at hA
      | dict d => simp at hA
  · cases hg : aget ee "evidence" with
    | none => rw [hg] at hB; simp at hB
    | some v =>
      rw [hg] at hB
      cases v with
      | dict ev =>
        dsimp only at hB
        simp only [Bool.and_eq_true] at hB
        exact ⟨ev, rfl, hB.1.1.1, hB.1.1.2, hB.1.2, hB.2⟩
      | pynone => simp at hB
      | pybool b => simp at hB
      | num q => simp at hB
      | str s => simp at hB
      | list l => simp at hB
  · rw [Bool.or_eq_true] at hC
    rcases hC with h | h
    · exact Or.inl h
    · exact Or.inr (Bool.not_eq_true' .. |>.mp h)

theorem edgeExplicit_elim (ed : PDict) (h : edgeExplicit ed = true) :
    (∃ fl, aget ed "flags" = some (PyVal.list fl)) ∧
    hasKey ed "check_reason" = true ∧
    (∃ ev, aget ed "evidence" = some (PyVal.dict ev) ∧ hasKey ev "title" = true ∧
      hasKey ev "snippet" = true ∧ hasKey ev "url" = true ∧
      hasKey ev "domain" = true) ∧
    truthy (dgetD ed "id") = true := by
  unfold edgeExplicit at h
  simp only [Bool.and_eq_true] at h
  obtain ⟨⟨⟨hA, hB⟩, hC⟩, hD⟩ := h
  refine ⟨?_, hB, ?_, hD⟩
  · cases hg : aget ed "flags" with
    | none => rw [hg] at hA; simp at hA
    | some v =>
      rw [hg] at hA
      cases v with
      | list l => exact ⟨l, rfl⟩
      | pynone => simp at hA
      | pybool b => simp at hA
      | num q => simp at hA
      | str s => simp at hA
      | dict d => simp at hA
  · cases hg : aget ed "evidence" with
    | none => rw [hg] at hC; simp at hC
    | some v =>
      rw [hg] at hC
      cases v with
      | dict ev =>
        dsimp only at hC
        simp only [Bool.and_eq_true] at hC
        exact ⟨ev, rfl, hC.1.1.1, hC.1.1.2, hC.1.2, hC.2⟩
      | pynone => simp at hC
      | pybool b => simp at hC
      | num q => simp at hC
      | str s => simp at hC
      | list l => simp at hC

theorem fixEdge_fixes (nd : List (String × String)) (ed : PDict) :
    edgeFixedB (fixEdge nd ed).1 = true := by
  obtain ⟨fl, hfl⟩ := fixFlags_flags ed
  obtain ⟨ev, hev, k1, k2, k3, k4⟩ :=
    fixEv_fst nd (asetdefault (fixFlags ed).1 "check_reason" PyVal.pynone)
  obtain ⟨hne, hid⟩ :=
    fixId_spec (fixEv nd (asetdefault (fixFlags ed).1 "check_reason" PyVal.pynone)).1
  have hE : (fixEdge nd ed).1 =
      (fixId (fixEv nd
        (asetdefault (fixFlags ed).1 "check_reason" PyVal.pynone)).1).1 := rfl
  rw [hE]
  apply edgeFixedB_intro _ fl ev
  · rw [hne _ (by decide), hev, aget_aset_ne _ _ _ _ (by decide),
        aget_asetdefault_ne _ _ _ _ (by decide)]
    exact hfl
  · rw [hne _ (by decide), hev, aget_aset_self]
  · exact k1
  · exact k2
  · exact k3
  · exact k4
  · exact hid

theorem fixEdge_count_zero (nd : List (String × String)) (ee : PDict)
    (h : edgeFixedB ee = true) : (fixEdge nd ee).2 = 0 := by
  obtain ⟨⟨fl, hf⟩, ⟨ev, hev, h1, h2, h3, h4⟩, hid⟩ := edgeFixedB_elim ee h
  have hev1 : aget (asetdefault ee "check_reason" PyVal.pynone) "evidence" =
      some (PyVal.dict ev) := by
    rw [aget_asetdefault_ne _ _ _ _ (by decide)]
    exact hev
  have hkid : ∀ k : String, ¬ "check_reason" = k → ¬ "evidence" = k →
      dgetD (aset (asetdefault ee "check_reason" PyVal.pynone) "evidence"
        (PyVal.dict ev)) k = dgetD ee k := by
    intro k hk1 hk2
    unfold dgetD
    rw [aget_aset_ne _ _ _ _ hk2, aget_asetdefault_ne _ _ _ _ hk1]
  have hside : truthy (dgetD (aset (asetdefault ee "check_reason" PyVal.pynone)
        "evidence" (PyVal.dict ev)) "id") = true ∨
      (truthy (dgetD (aset (asetdefault ee "check_reason" PyVal.pynone)
          "evidence" (PyVal.dict ev)) "source") &&
       truthy (dgetD (aset (asetdefault ee "check_reason" PyVal.pynone)
          "evidence" (PyVal.dict ev)) "target") &&
       truthy (dgetD (aset (asetdefault ee "check_reason" PyVal.pynone)
          "evidence" (PyVal.dict ev)) "relation")) = false := by
    rcases hid with h' | h'
    · left
      rw [hkid "id" (by decide) (by decide)]
      exact h'
    · right
      rw [hkid "source" (by decide) (by decide), hkid "target" (by decide) (by decide),
          hkid "relation" (by decide) (by decide)]
      exact h'
  unfold fixEdge
  rw [fixFlags_noop ee fl hf]
  dsimp only
  rw [fixEv_of_keys nd _ ev hev1 h1 h2 h3 h4]
  dsimp only
  rw [fixId_noop _ hside]
  rfl

theorem fixEdge_noop (nd : List (String × String)) (ed : PDict)
    (h : edgeExplicit ed = true) : fixEdge nd ed = (ed, 0) := by
  obtain ⟨⟨fl, hf⟩, hcr, ⟨ev, hev, h1, h2, h3, h4⟩, hid⟩ := edgeExplicit_elim ed h
  unfold fixEdge
  rw [fixFlags_noop ed fl hf]
  dsimp only
  rw [asetdefault_of_hasKey _ _ _ hcr]
  rw [fixEv_of_keys nd ed ev hev h1 h2 h3 h4]
  dsimp only
  rw [aset_self_of_aget _ _ _ hev]
  rw [fixId_noop ed (Or.inl hid)]
  rfl

theorem edgesFold_cons_dict (nd : List (String × String)) (ed : PDict)
    (es : List PyVal) :
    edgesFold nd (PyVal.dict ed :: es) =
      (PyVal.dict (fixEdge nd ed).1 :: (edgesFold nd es).1,
       (fixEdge nd ed).2 + (edgesFold nd es).2) := rfl

theorem edgesFold_len (nd : List (String × String)) (es : List PyVal)
    (h : es.all isDictV = true) : (edgesFold nd es).1.length = es.length := by
  induction es with
  | nil => rfl
  | cons e t ih =>
    rw [List.all_cons, Bool.and_eq_true] at h
    cases e with
    | dict ed =>
      rw [edgesFold_cons_dict]
      dsimp only
      rw [List.length_cons, List.length_cons, ih h.2]
    | pynone => simp [isDictV] at h
    | pybool b => simp [isDictV] at h
    | num q => simp [isDictV] at h
    | str s => simp [isDictV] at h
    | list l => simp [isDictV] at h

theorem edgesFold_mem (nd : List (String × String)) (es : List PyVal) (x : PyVal)
    (h : x ∈ (edgesFold nd es).1) : ∃ ed, x = PyVal.dict (fixEdge nd ed).1 := by
  induction es with
  | nil => exact absurd h (List.not_mem_nil x)
  | cons e t ih =>
    cases e with
    | dict ed =>
      rw [edgesFold_cons_dict] at h
      dsimp only at h
      rcases List.mem_cons.mp h with h | h
      · exact ⟨ed, h⟩
      · exact ih h
    | pynone => exact ih h
    | pybool b => exact ih h
    | num q => exact ih h
    | str s => exact ih h
    | list l => exact ih h

theorem edgesFold_count_zero (nd : List (String × String)) (es : List PyVal)
    (h : ∀ ed : PDict, PyVal.dict ed ∈ es → (fixEdge nd ed).2 = 0) :
    (edgesFold nd es).2 = 0 := by
  induction es with
  | nil => rfl
  | cons e t ih =>
    have ht := ih (fun ed hm => h ed (List.mem_cons_of_mem _ hm))
    cases e with
    | dict ed =>
      rw [edgesFold_cons_dict]
      dsimp only
      rw [h ed (List.mem_cons_self _ _), ht]
    | pynone => exact ht
    | pybool b => exact ht
    | num q => exact ht
    | str s => exact ht
    | list l => exact ht

theorem edgesFold_noop (nd : List (String × String)) (es : List PyVal)
    (h : ∀ e ∈ es, ∃ ed, e = PyVal.dict ed ∧ fixEdge nd ed = (ed, 0)) :
    edgesFold nd es = (es, 0) := by
  induction es with
  | nil => rfl
  | cons e t ih =>
    obtain ⟨ed, rfl, hfix⟩ := h e (List.mem_cons_self e t)
    have ht := ih (fun x hx => h x (List.mem_cons_of_mem _ hx))
    rw [edgesFold_cons_dict, hfix, ht]
    rfl

theorem validMeta_keys (m : PDict) (h : validMeta (PyVal.dict m) = true) :
    hasKey m "generated_at" = true ∧ hasKey m "version" = true ∧
    hasKey m "checker_summary" = true := by
  unfold validMeta at h
  simp only [Bool.and_eq_true] at h
  obtain ⟨⟨⟨h1, h2⟩, h3⟩, _⟩ := h
  refine ⟨?_, ?_, ?_⟩
  · cases hg : aget m "generated_at" with
    | none => rw [hg] at h1; simp at h1
    | some v => exact hasKey_of_aget _ _ _ hg
  · cases hg : aget m "version" with
    | none => rw [hg] at h2; simp at h2
    | some v => exact hasKey_of_aget _ _ _ hg
  · cases hg : aget m "checker_summary" with
    | none => rw [hg] at h3; simp at h3
    | some v => exact hasKey_of_aget _ _ _ hg

theorem validate_parts (g0 : PDict) (h : validate_graph (PyVal.dict g0) = true) :
    (∃ s, aget g0 "concept" = some (PyVal.str s)) ∧
    (∃ ns, aget g0 "nodes" = some (PyVal.list ns)) ∧
    (∃ es, aget g0 "edges" = some (PyVal.list es)) ∧
    (∃ m, aget g0 "meta" = some (PyVal.dict m) ∧ hasKey m "generated_at" = true ∧
      hasKey m "version" = true ∧ hasKey m "checker_summary" = true) := by
  unfold validate_graph at h
  dsimp only at h
  simp only [Bool.and_eq_true] at h
  obtain ⟨⟨⟨hA, hB⟩, hC⟩, hD⟩ := h
  refine ⟨?_, ?_, ?_, ?_⟩
  · cases hg : aget g0 "concept" with
    | none => rw [hg] at hA; simp at hA
    | some v =>
      rw [hg] at hA
      cases v with
      | str s => exact ⟨s, rfl⟩
      | pynone => simp [isStrV] at hA
      | pybool b => simp [isStrV] at hA
      | num q => simp [isStrV] at hA
      | list l => simp [isStrV] at hA
      | dict d => simp [isStrV] at hA
  · cases hg : aget g0 "nodes" with
    | none => rw [hg] at hB; simp at hB
    | some v =>
      rw [hg] at hB
      cases v with
      | list ns => exact ⟨ns, rfl⟩
      | pynone => simp at hB
      | pybool b => simp at hB
      | num q => simp at hB
      | str s => simp at hB
      | dict d => simp at hB
  · cases hg : aget g0 "edges" with
    | none => rw [hg] at hC; simp at hC
    | some v =>
      rw [hg] at hC
      cases v with
      | list es => exact ⟨es, rfl⟩
      | pynone => simp at hC
      | pybool b => simp at hC
      | num q => simp at hC
      | str s => simp at hC
      | dict d => simp at hC
  · cases hg : aget g0 "meta" with
    | none => rw [hg] at hD; simp at hD
    | some v =>
      rw [hg] at hD
      cases v with
      | dict m =>
        obtain ⟨k1, k2, k3⟩ := validMeta_keys m hD
        exact ⟨m, rfl, k1, k2, k3⟩
      | pynone => simp [validMeta] at hD
      | pybool b => simp [validMeta] at hD
      | num q => simp [validMeta] at hD
      | str s => simp [validMeta] at hD
      | list l => simp [validMeta] at hD

theorem graphExplicit_edges (g0 : PDict) (es : List PyVal)
    (hes : aget g0 "edges" = some (PyVal.list es))
    (hx : graphExplicit (PyVal.dict g0) = true) :
    ∀ e ∈ es, ∃ ed, e = PyVal.dict ed ∧ edgeExplicit ed = true := by
  unfold graphExplicit at hx
  dsimp only at hx
  rw [hes] at hx
  dsimp only at hx
  intro e hemem
  have hall := List.all_eq_true.mp hx e hemem
  cases e with
  | dict ed => exact ⟨ed, rfl, hall⟩
  | pynone => simp at hall
  | pybool b => simp at hall
  | num q => simp at hall
  | str s => simp at hall
  | list l => simp at hall

/-- A second `light_fix` run on `g2` with its `edges` entry overwritten by
an already-repaired list `es2` succeeds and fixes nothing. -/
theorem light_fix_second (g2 : PDict) (m : PDict) (ns es2 : List PyVal)
    (hKc : hasKey g2 "concept" = true) (hKn : hasKey g2 "nodes" = true)
    (hKm : hasKey g2 "meta" = true)
    (hMg2 : aget g2 "meta" = some (PyVal.dict m))
    (hk1 : hasKey m "generated_at" = true) (hk2 : hasKey m "version" = true)
    (hk3 : hasKey m "checker_summary" = true)
    (hn : pyIter (orEmptyList (dgetD g2 "nodes")) = some ns)
    (errs2 : List String)
    (hcnt : (edgesFold (nodeDomainOf ns) es2).2 = 0) :
    ∃ q : PDict × Nat,
      light_fix (PyVal.dict (aset g2 "edges" (PyVal.list es2))) errs2 = some q ∧
      q.2 = 0 := by
  have hKc1 : hasKey (aset g2 "edges" (PyVal.list es2)) "concept" = true :=
    hasKey_aset_mono _ _ _ _ hKc
  have hKn1 : hasKey (aset g2 "edges" (PyVal.list es2)) "nodes" = true :=
    hasKey_aset_mono _ _ _ _ hKn
  have hKe1 : hasKey (aset g2 "edges" (PyVal.list es2)) "edges" = true :=
    hasKey_aset_self _ _ _
  have hKm1 : hasKey (aset g2 "edges" (PyVal.list es2)) "meta" = true :=
    hasKey_aset_mono _ _ _ _ hKm
  have htop1 : topDefaults (aset g2 "edges" (PyVal.list es2)) =
      (aset g2 "edges" (PyVal.list es2), 0) :=
    topDefaults_noop _ hKc1 hKn1 hKe1 hKm1
  have hM1 : aget (aset g2 "edges" (PyVal.list es2)) "meta" = some (PyVal.dict m) := by
    rw [aget_aset_ne _ _ _ _ (by decide)]
    exact hMg2
  have hmeta1 : metaStage (aset g2 "edges" (PyVal.list es2)) =
      some (aset g2 "edges" (PyVal.list es2)) :=
    metaStage_noop _ m hM1 hk1 hk2 hk3
  have hn1 : pyIter (orEmptyList (dgetD (aset g2 "edges" (PyVal.list es2)) "nodes")) =
      some ns := by
    have hh : dgetD (aset g2 "edges" (PyVal.list es2)) "nodes" = dgetD g2 "nodes" := by
      unfold dgetD
      rw [aget_aset_ne _ _ _ _ (by decide)]
    rw [hh]
    exact hn
  have he1 : pyIter (orEmptyList (dgetD (aset g2 "edges" (PyVal.list es2)) "edges")) =
      some es2 := by
    have hh : dgetD (aset g2 "edges" (PyVal.list es2)) "edges" = PyVal.list es2 := by
      unfold dgetD
      rw [aget_aset_self]
      rfl
    rw [hh]
    exact pyIter_orEmpty_list _
  refine ⟨(aset (aset g2 "edges" (PyVal.list es2)) "edges"
      (PyVal.list (edgesFold (nodeDomainOf ns) es2).1), 0), ?_, rfl⟩
  unfold light_fix
  dsimp only
  rw [htop1]
  dsimp only
  rw [hmeta1]
  dsimp only
  rw [hn1]
  dsimp only
  rw [he1]
  dsimp only
  rw [hcnt]

/-! ## Claims C6–C8 -/

/-- Claim C6, the part the code refutes: `exG6` passes `validate_graph`
(`evidence.domain` is an optional field), yet `light_fix` reports one fix —
it inserts the missing `evidence.domain` — so a schema-valid draft is not
left unchanged with `fixedCount = 0`. -/
theorem claim_C6_counterexample :
    validate_graph (PyVal.dict exG6) = true ∧
    (light_fix (PyVal.dict exG6) []).map Prod.snd = some 1 ∧
    ¬ (light_fix (PyVal.dict exG6) []).map Prod.snd = some 0 :=
  ⟨rfl, rfl, by decide⟩

/-- Claim C6 (amended): a draft that passes `validate_graph` AND whose edge
dicts already carry every key the repairer would insert (`flags`,
`check_reason`, the four evidence keys, a truthy `id`) is returned by
`light_fix` structurally unchanged with `fixedCount = 0`.  Validity alone is
not enough: the repairer also fills optional fields (`evidence.url`,
`evidence.domain`, `flags`, `check_reason`) that `validate_graph` does not
require. -/
theorem claim_C6_corrected (g0 : PDict) (errs : List String)
    (hv : validate_graph (PyVal.dict g0) = true)
    (hx : graphExplicit (PyVal.dict g0) = true) :
    light_fix (PyVal.dict g0) errs = some (g0, 0) := by
  obtain ⟨⟨s, hc⟩, ⟨ns, hns⟩, ⟨es, hes⟩, ⟨m, hm, hk1, hk2, hk3⟩⟩ :=
    validate_parts g0 hv
  have htop : topDefaults g0 = (g0, 0) :=
    topDefaults_noop g0 (hasKey_of_aget _ _ _ hc) (hasKey_of_aget _ _ _ hns)
      (hasKey_of_aget _ _ _ hes) (hasKey_of_aget _ _ _ hm)
  have hmeta : metaStage g0 = some g0 := metaStage_noop g0 m hm hk1 hk2 hk3
  have hfold : edgesFold (nodeDomainOf ns) es = (es, 0) :=
    edgesFold_noop _ _ (fun e hemem => by
      obtain ⟨ed, rfl, hex⟩ := graphExplicit_edges g0 es hes hx e hemem
      exact ⟨ed, rfl, fixEdge_noop _ ed hex⟩)
  have hn2 : pyIter (orEmptyList (dgetD g0 "nodes")) = some ns := by
    unfold dgetD
    rw [hns]
    exact pyIter_orEmpty_list ns
  have he2 : pyIter (orEmptyList (dgetD g0 "edges")) = some es := by
    unfold dgetD
    rw [hes]
    exact pyIter_orEmpty_list es
  unfold light_fix
  dsimp only
  rw [htop]
  dsimp only
  rw [hmeta]
  dsimp only
  rw [hn2]
  dsimp only
  rw [he2]
  dsimp only
  rw [hfold]
  dsimp only
  rw [aset_self_of_aget _ _ _ hes]

/-- Witness for Claim C6: the fully explicit valid draft `exG6w` is
returned unchanged with `fixedCount = 0`. -/
theorem claim_C6_witness :
    validate_graph (PyVal.dict exG6w) = true ∧
    graphExplicit (PyVal.dict exG6w) = true ∧
    light_fix (PyVal.dict exG6w) [] = some (exG6w, 0) :=
  ⟨rfl, rfl, claim_C6_corrected exG6w [] rfl rfl⟩

/-- Claim C7 (confirmed): whenever `light_fix` returns (does not raise),
running it again on the repaired dict reports `fixedCount = 0`. -/
theorem claim_C7_confirmed (g : PyVal) (errs errs2 : List String) (p : PDict × Nat)
    (h : light_fix g errs = some p) :
    ∃ q : PDict × Nat, light_fix (PyVal.dict p.1) errs2 = some q ∧ q.2 = 0 := by
  cases g with
  | pynone => simp [light_fix] at h
  | pybool b => simp [light_fix] at h
  | num q => simp [light_fix] at h
  | str s => simp [light_fix] at h
  | list l => simp [light_fix] at h
  | dict g0 =>
    unfold light_fix at h
    dsimp only at h
    cases hm : metaStage (topDefaults g0).1 with
    | none => rw [hm] at h; cases h
    | some g2 =>
    rw [hm] at h
    dsimp only at h
    cases hn2 : pyIter (orEmptyList (dgetD g2 "nodes")) with
    | none => rw [hn2] at h; cases h
    | some ns =>
    rw [hn2] at h
    dsimp only at h
    cases he2 : pyIter (orEmptyList (dgetD g2 "edges")) with
    | none => rw [he2] at h; cases h
    | some es =>
    rw [he2] at h
    dsimp only at h
    have hp := Option.some.inj h
    subst hp
    dsimp only
    obtain ⟨m, hg2, hk1, hk2, hk3⟩ := metaStage_some _ _ hm
    have hKc : hasKey g2 "concept" = true := by
      rw [hg2]
      exact hasKey_aset_mono _ _ _ _ (topDefaults_hasKey g0).1
    have hKn : hasKey g2 "nodes" = true := by
      rw [hg2]
      exact hasKey_aset_mono _ _ _ _ (topDefaults_hasKey g0).2.1
    have hKm : hasKey g2 "meta" = true := by
      rw [hg2]
      exact hasKey_aset_self _ _ _
    have hMg2 : aget g2 "meta" = some (PyVal.dict m) := by
      rw [hg2]
      exact aget_aset_self _ _ _
    have hcnt : (edgesFold (nodeDomainOf ns)
        (edgesFold (nodeDomainOf ns) es).1).2 = 0 := by
      apply edgesFold_count_zero
      intro ed hmem
      obtain ⟨ed0, hed0⟩ := edgesFold_mem _ _ _ hmem
      injection hed0 with hed0
      rw [hed0]
      exact fixEdge_count_zero _ _ (fixEdge_fixes _ _)
    exact light_fix_second g2 m ns (edgesFold (nodeDomainOf ns) es).1
      hKc hKn hKm hMg2 hk1 hk2 hk3 hn2 errs2 hcnt

/-- Witness for Claim C7: repairing the repaired form of `exG8w` (four
fixes on the first pass) reports zero further fixes. -/
theorem claim_C7_witness :
    ∃ q : PDict × Nat, light_fix (PyVal.dict exG8wOut) [] = some q ∧ q.2 = 0 :=
  claim_C7_confirmed (PyVal.dict exG8w) [] [] (exG8wOut, 4) rfl

/-- Claim C8, the part the code refutes: the draft `exG8` has one entry in
its edges list (the non-dict `5`), but `light_fix` silently drops it — the
repaired dict has an empty edges list, so entry counts are not preserved. -/
theorem claim_C8_counterexample :
    aget exG8 "edges" = some (PyVal.list [PyVal.num 5]) ∧
    (light_fix (PyVal.dict exG8) []).map (fun p => aget p.1 "edges") =
      some (some (PyVal.list [])) :=
  ⟨rfl, rfl⟩

/-- Claim C8 (amended): `light_fix` never touches the nodes entry — when
the input has a `nodes` key its value is returned verbatim — and it keeps
exactly as many edges as the input whenever every entry of the input edges
list is a dict; a non-dict edges entry, however, is silently dropped
(`continue`), so the edge count can shrink. -/
theorem claim_C8_corrected (g0 : PDict) (errs : List String) (es : List PyVal)
    (p : PDict × Nat)
    (hn : hasKey g0 "nodes" = true)
    (he : aget g0 "edges" = some (PyVal.list es))
    (hd : es.all isDictV = true)
    (hr : light_fix (PyVal.dict g0) errs = some p) :
    aget p.1 "nodes" = aget g0 "nodes" ∧
    ∃ es1, aget p.1 "edges" = some (PyVal.list es1) ∧ es1.length = es.length := by
  unfold light_fix at hr
  dsimp only at hr
  cases hm : metaStage (topDefaults g0).1 with
  | none => rw [hm] at hr; cases hr
  | some g2 =>
  rw [hm] at hr
  dsimp only at hr
  cases hn2 : pyIter (orEmptyList (dgetD g2 "nodes")) with
  | none => rw [hn2] at hr; cases hr
  | some ns =>
  rw [hn2] at hr
  dsimp only at hr
  cases he2 : pyIter (orEmptyList (dgetD g2 "edges")) with
  | none => rw [he2] at hr; cases hr
  | some es0 =>
  rw [he2] at hr
  dsimp only at hr
  have hp := Option.some.inj hr
  subst hp
  dsimp only
  obtain ⟨m, hg2, _, _, _⟩ := metaStage_some _ _ hm
  have hTn : aget (topDefaults g0).1 "nodes" = aget g0 "nodes" :=
    topDefaults_aget g0 "nodes" hn
  have hTe : aget (topDefaults g0).1 "edges" = aget g0 "edges" :=
    topDefaults_aget g0 "edges" (hasKey_of_aget _ _ _ he)
  have hg2n : aget g2 "nodes" = aget g0 "nodes" := by
    rw [hg2, aget_aset_ne _ _ _ _ (by decide)]
    exact hTn
  have hg2e : aget g2 "edges" = some (PyVal.list es) := by
    rw [hg2, aget_aset_ne _ _ _ _ (by decide), hTe]
    exact he
  have hes0 : es = es0 := by
    have hh : pyIter (orEmptyList (dgetD g2 "edges")) = some es := by
      unfold dgetD
      rw [hg2e]
      exact pyIter_orEmpty_list es
    exact Option.some.inj (hh.symm.trans he2)
  subst hes0
  constructor
  · rw [aget_aset_ne _ _ _ _ (by decide)]
    exact hg2n
  · exact ⟨_, aget_aset_self _ _ _, edgesFold_len _ _ hd⟩

/-- Witness for Claim C8: repairing `exG8w` (one dict edge, nodes present)
keeps the nodes value verbatim and exactly one edge. -/
theorem claim_C8_witness :
    aget exG8wOut "nodes" = aget exG8w "nodes" ∧
    ∃ es1, aget exG8wOut "edges" = some (PyVal.list es1) ∧
      es1.length = [PyVal.dict [("source", PyVal.str "a")]].length :=
  claim_C8_corrected exG8w [] [PyVal.dict [("source", PyVal.str "a")]]
    (exG8wOut, 4) rfl rfl rfl rfl

end RatEval

end CloudGraph
